import Mathlib

/-!
# tcpproxy2: a byte-transparent TCP relay on netpoll

Shallow embedding of `src/tcpproxy2/server.go`.

The program talks to the netpoll library (connections, readers, writers) and
to a `context.Context`.  Neither is part of the repository, so every library
call is modelled as an *observable event* whose result is supplied by the
environment: a run of the code is determined by the answers the environment
gives, and the code's behaviour is the trace of events it produces.

* `transferIter` is one pass through the body of the `for`/`select` loop of
  `transfer` (lines 90-119);
* `transfer` is the loop itself, driven by one `Round` of answers per pass;
* `onConnect` is lines 52-58, `onRequest` lines 60-84, where the two
  goroutines are interleaved by an explicit schedule and joined through the
  wait-group counter.
-/

set_option linter.constructorNameAsVariable false

namespace TcpProxy

/-! ## Data model -/

/-- One octet on the wire. -/
abbrev Byte := Fin 256

/-- A non-nil Go `error` value (its identity is all that matters here). -/
abbrev Errno := Nat

/-- Equality of fallible results is decidable (used to compare traces). -/
instance instDecidableEqExcept {ε α : Type} [DecidableEq ε] [DecidableEq α] :
    DecidableEq (Except ε α)
  | .ok a, .ok b => if h : a = b then isTrue (by rw [h]) else isFalse (fun h1 => h (by cases h1; rfl))
  | .error a, .error b =>
    if h : a = b then isTrue (by rw [h]) else isFalse (fun h1 => h (by cases h1; rfl))
  | .ok _, .error _ => isFalse (fun h => by cases h)
  | .error _, .ok _ => isFalse (fun h => by cases h)

/-- The two connections of a session. -/
inductive Endpoint
  | upstream
  | downstream
  deriving DecidableEq, Repr

/-- The diagnostic lines the program prints (`log.Printf` / `fmt.Printf`). -/
inductive Msg
  | connectDownstreamFailed
  | readStreamFailed
  | mallocWriterFailed
  | flushWriterError
  | releaseReaderError
  | closeConnectionFailed
  deriving DecidableEq, Repr

/-- Observable events of a run.  A pump is named by its source endpoint. -/
inductive Ev
  /-- the `select` on `ctx.Done()`: `fired = true` when the channel was closed -/
  | ctxDone (pump : Endpoint) (fired : Bool)
  /-- `reader.Len()` -/
  | readerLen (src : Endpoint) (n : Nat)
  /-- `reader.ReadBinary(n)` and what it returned -/
  | readBinary (src : Endpoint) (n : Nat) (res : Except Errno (List Byte))
  /-- `writer.Malloc(n)`; on success the length of the slice handed back -/
  | malloc (dst : Endpoint) (n : Nat) (res : Except Errno Nat)
  /-- `copy(alloc, buf)`: the bytes that were stored into the writer -/
  | copy (dst : Endpoint) (bytes : List Byte)
  /-- `writer.MallocLen()` -/
  | mallocLen (dst : Endpoint) (n : Nat)
  /-- `writer.Flush()`: the pending bytes it was asked to send, and its result -/
  | flush (dst : Endpoint) (bytes : List Byte) (res : Option Errno)
  /-- `reader.Release()` -/
  | release (src : Endpoint) (res : Option Errno)
  /-- a diagnostic line -/
  | printf (m : Msg) (e : Errno)
  /-- `transfer` returns -/
  | ret (pump : Endpoint)
  /-- `conn.Close()` -/
  | close (conn : Endpoint) (res : Option Errno)
  deriving DecidableEq, Repr

/-- Answers of the library to the calls of one loop pass (an answer is only
consumed when the corresponding call is made). -/
structure Resp where
  /-- value of `reader.Len()` -/
  len : Nat
  /-- result of `reader.ReadBinary` -/
  read : Except Errno (List Byte)
  /-- result of `writer.Malloc`: length of the returned slice, or an error -/
  malloc : Except Errno Nat
  /-- result of `writer.Flush` (`none` is a nil error) -/
  flush : Option Errno
  /-- result of `reader.Release` (`none` is a nil error) -/
  release : Option Errno
  deriving DecidableEq, Repr

/-- Go's builtin `copy(dst, src)`: overwrites the first
`min (len dst) (len src)` elements of `dst`; the result is the new `dst`. -/
def goCopy (dst src : List Byte) : List Byte :=
  src.take dst.length ++ dst.drop src.length

/-! ## `transfer` -/

/-- Lines 109-118, the end of a loop pass: flush when the writer has something
pending (`pend1`), then release the reader.  `none` is `return`, `some p` goes
back to the top of the loop with `p` pending. -/
def flushAndRelease (src dst : Endpoint) (io : Resp) (pend1 : List Byte) :
    List Ev × Option (List Byte) :=
  if 0 < pend1.length then
    match io.flush with
    | some e => ([.flush dst pend1 (some e), .printf .flushWriterError e], none)
    | none =>
      match io.release with
      | some e =>
        ([.flush dst pend1 none, .release src (some e), .printf .releaseReaderError e], none)
      | none => ([.flush dst pend1 none, .release src none], some [])
  else
    match io.release with
    | some e => ([.release src (some e), .printf .releaseReaderError e], none)
    | none => ([.release src none], some pend1)

/-- One pass through the `for { select { ... } }` body of `transfer`.

`done` is whether `ctx.Done()` is closed at the `select`; `pend` is what the
destination writer holds malloc-ed and not yet flushed.  The result is the
events of the pass, and `none` when the pass executed `return`, `some p` when
control goes back to the top of the loop with `p` pending in the writer. -/
def transferIter (src dst : Endpoint) (done : Bool) (io : Resp) (pend : List Byte) :
    List Ev × Option (List Byte) :=
  if done then
    ([.ctxDone src true], none)
  else
    match io.read with
    | .error e =>
      ([.ctxDone src false, .readerLen src io.len, .readBinary src io.len (.error e),
        .printf .readStreamFailed e], none)
    | .ok buf =>
      match io.malloc with
      | .error e =>
        ([.ctxDone src false, .readerLen src io.len, .readBinary src io.len (.ok buf),
          .malloc dst buf.length (.error e), .printf .mallocWriterFailed e], none)
      | .ok m =>
        let pend1 := pend ++ goCopy (List.replicate m 0) buf
        let r := flushAndRelease src dst io pend1
        ([.ctxDone src false, .readerLen src io.len, .readBinary src io.len (.ok buf),
          .malloc dst buf.length (.ok m), .copy dst (buf.take m),
          .mallocLen dst pend1.length] ++ r.1, r.2)

/-- What the environment supplies for one loop pass of a stand-alone pump. -/
structure Round where
  /-- whether `ctx.Done()` is closed when the pass reaches its `select` -/
  done : Bool
  /-- the library's answers during the pass -/
  io : Resp
  deriving DecidableEq, Repr

/-- A (prefix of a) run of `transfer`. -/
structure Run where
  /-- events so far, oldest first -/
  trace : List Ev
  /-- whether `transfer` has returned -/
  returned : Bool
  deriving DecidableEq, Repr

/-- The loop of `transfer(ctx, src, dst)`, entered with `pend` pending in
`dst`'s writer, run for as many passes as the environment has answered.
`returned = false` means the pump is still in its loop after those passes. -/
def transfer (src dst : Endpoint) : List Round → List Byte → Run
  | [], _ => { trace := [], returned := false }
  | r :: rs, pend =>
    match transferIter src dst r.done r.io pend with
    | (evs, none) => { trace := evs ++ [.ret src], returned := true }
    | (evs, some pend1) =>
      let rest := transfer src dst rs pend1
      { trace := evs ++ rest.trace, returned := rest.returned }

/-! ## `onConnect` and `onRequest` -/

/-- A value of the interface type `netpoll.Connection`, as far as the program
can tell values apart. -/
inductive Conn
  /-- the nil interface value (also what `ctx.Value` gives for an absent key) -/
  | nil
  /-- a non-nil interface value that wraps a nil `*TCPConnection`: what a
  function returning a concrete nil pointer produces when its result is
  converted to the interface -/
  | nilPtr
  /-- an open connection -/
  | live (e : Endpoint)
  deriving DecidableEq, Repr

/-- What `netpoll.DialConnection` handed back: the connection value and the
error (`none` is a nil error). -/
structure DialResult where
  conn : Conn
  err : Option Errno
  deriving DecidableEq, Repr

/-- The part of a `context.Context` the program looks at. -/
structure Ctx where
  /-- whether `Done()` is already closed -/
  done : Bool
  /-- `Value(downstreamKey)` -/
  downstream : Conn
  deriving DecidableEq, Repr

/-- The places where the program can panic on a connection value. -/
inductive Site
  /-- line 61: the type assertion `.(netpoll.Connection)` on a nil interface -/
  | line61
  /-- line 87: `src.Reader()` through a nil connection -/
  | line87
  /-- line 88: `dst.Writer()` through a nil connection -/
  | line88
  deriving DecidableEq, Repr

/-- Lines 87-88, the entry of `transfer`: `src.Reader()` then `dst.Writer()`.
A method call through a connection value that is not an open connection is a
nil dereference; the result is the line that panics, `none` when both calls
succeed and the loop is entered. -/
def transferEntry (src dst : Conn) : Option Site :=
  match src with
  | .live _ =>
    match dst with
    | .live _ => none
    | _ => some .line88
  | _ => some .line87

/-- Lines 52-58: dial, print when the dial failed, and in either case return the
context extended with whatever connection value the dial produced. -/
def onConnect (ctx : Ctx) (dial : DialResult) : List Ev × Ctx :=
  (match dial.err with
   | some e => [.printf .connectDownstreamFailed e]
   | none => [],
   { ctx with downstream := dial.conn })

/-- A goroutine running `transfer`: the library answers it has not consumed yet,
what its destination writer holds pending, and whether `transfer` returned. -/
structure Pump where
  script : List Resp
  pend : List Byte
  returned : Bool
  deriving DecidableEq, Repr

/-- The state shared by the goroutines of one `onRequest` call. -/
structure Session where
  /-- whether `ctx.Done()` is closed -/
  cancelled : Bool
  /-- the counter of `wg` -/
  wg : Nat
  /-- `transfer(ctx, upstream, downstream)` -/
  fwd : Pump
  /-- `transfer(ctx, downstream, upstream)` -/
  bwd : Pump
  deriving DecidableEq, Repr

/-- One scheduling decision: let one of the two goroutines run its next loop
pass, or let the owner of the context (outside this program) cancel it. -/
inductive Pick
  | up2down
  | down2up
  | cancel
  deriving DecidableEq, Repr

/-- The next loop pass of a pump.  Nothing happens when `transfer` already
returned.  Without library answers at hand the pass can only take the
`case <-ctx.Done()` branch, which calls nothing: it returns when the signal is
set and otherwise waits. -/
def pumpStep (src dst : Endpoint) (cancelled : Bool) (p : Pump) : List Ev × Pump :=
  if p.returned then ([], p)
  else
    match p.script with
    | [] =>
      if cancelled then
        ([.ctxDone src true, .ret src], { script := [], pend := p.pend, returned := true })
      else ([], p)
    | io :: rest =>
      let r := transferIter src dst cancelled io p.pend
      match r.2 with
      | none => (r.1 ++ [.ret src], { script := rest, pend := p.pend, returned := true })
      | some pend1 => (r.1, { script := rest, pend := pend1, returned := false })

/-- A goroutine scheduled repeatedly; `cs` is what `ctx.Done()` shows at each of
its passes. -/
def pumpRun (src dst : Endpoint) : List Bool → Pump → List Ev × Pump
  | [], p => ([], p)
  | c :: cs, p =>
    let r := pumpStep src dst c p
    let r1 := pumpRun src dst cs r.2
    (r.1 ++ r1.1, r1.2)

/-- Answers that are never looked at (for a pass that makes no library call). -/
def Resp.unused : Resp :=
  { len := 0, read := .ok [], malloc := .ok 0, flush := none, release := none }

/-- The rounds of `transfer` a scheduled goroutine goes through: `cs` is what
`ctx.Done()` shows each time it is scheduled, `script` the library answers it
has.  Without an answer it waits while the signal is unset and returns, using
no answer, once the signal is set. -/
def roundsSeen : List Bool → List Resp → List Round
  | [], _ => []
  | c :: cs, io :: rest => ⟨c, io⟩ :: roundsSeen cs rest
  | true :: _, [] => [⟨true, Resp.unused⟩]
  | false :: cs, [] => roundsSeen cs []

/-- What `ctx.Done()` shows to goroutine `who` at each of its passes under a
schedule, `c` being its state at the start. -/
def seenBy (who : Pick) : List Pick → Bool → List Bool
  | [], _ => []
  | .cancel :: ps, _ => seenBy who ps true
  | pk :: ps, c => if pk = who then c :: seenBy who ps c else seenBy who ps c

/-- The wait-group counter after a goroutine ran: its deferred `wg.Done()`
fires when its `transfer` returns. -/
def wgAfter (wg : Nat) (before after : Pump) : Nat :=
  if after.returned && !before.returned then wg - 1 else wg

/-- One scheduling step of the session. -/
def step (upstream downstream : Endpoint) (s : Session) : Pick → List Ev × Session
  | .cancel => ([], { s with cancelled := true })
  | .up2down =>
    let r := pumpStep upstream downstream s.cancelled s.fwd
    (r.1, { s with fwd := r.2, wg := wgAfter s.wg s.fwd r.2 })
  | .down2up =>
    let r := pumpStep downstream upstream s.cancelled s.bwd
    (r.1, { s with bwd := r.2, wg := wgAfter s.wg s.bwd r.2 })

/-- The two goroutines under a schedule. -/
def goroutines (upstream downstream : Endpoint) : List Pick → Session → List Ev × Session
  | [], s => ([], s)
  | p :: ps, s =>
    let r := step upstream downstream s p
    let r1 := goroutines upstream downstream ps r.2
    (r.1 ++ r1.1, r1.2)

/-- The statement `if err := c.Close(); err != nil { fmt.Printf(...) }`. -/
def closeConn (c : Endpoint) (res : Option Errno) : List Ev :=
  match res with
  | some e => [.close c (some e), .printf .closeConnectionFailed e]
  | none => [.close c none]

/-- The session when `onRequest` has executed `wg.Add(2)` and started its two
goroutines: both pumps at the top of their loop, on writers with nothing
pending. -/
def Session.start (ctx : Ctx) (fwd bwd : List Resp) : Session :=
  { cancelled := ctx.done, wg := 2,
    fwd := { script := fwd, pend := [], returned := false },
    bwd := { script := bwd, pend := [], returned := false } }

/-- How a call of `onRequest` stands. -/
inductive Outcome
  /-- it executed `return err` -/
  | returned (err : Option Errno)
  /-- a panic: at line 61 in `onRequest` itself, or at line 87 or 88 in one of
  its goroutines, where nothing recovers it and the process dies -/
  | panicked (site : Site)
  /-- it is in `wg.Wait()` -/
  | blocked
  deriving DecidableEq, Repr

/-- A goroutine that is scheduled for the first time enters `transfer`. -/
def enterTransfer (src dst : Conn) : Outcome :=
  match transferEntry src dst with
  | some site => .panicked site
  | none => .blocked

/-- Lines 60-84.  `sched` is the interleaving of the two goroutines, `fwd` and
`bwd` the library answers to the two pumps, `closeUp` and `closeDown` the
results of the two `Close` calls.

The type assertion of line 61 panics on the nil interface and on nothing else.
On a nil pointer wrapped in the interface it succeeds, `wg.Add(2)` runs and
both goroutines are started; the first one scheduled calls `transfer`, which
dereferences the nil connection at its entry.  On an open connection the two
goroutines run their loops, `wg.Wait()` is left when the counter is zero, and
the two closes follow. -/
def onRequest (ctx : Ctx) (upstream : Endpoint) (sched : List Pick) (fwd bwd : List Resp)
    (closeUp closeDown : Option Errno) : Outcome × List Ev :=
  match ctx.downstream with
  | .nil => (.panicked .line61, [])
  | .nilPtr =>
    match sched.find? (fun pk => pk != .cancel) with
    | some .down2up => (enterTransfer .nilPtr (.live upstream), [])
    | some _ => (enterTransfer (.live upstream) .nilPtr, [])
    | none => (.blocked, [])
  | .live downstream =>
    let r := goroutines upstream downstream sched (Session.start ctx fwd bwd)
    if r.2.wg = 0 then
      (.returned none, r.1 ++ closeConn upstream closeUp ++ closeConn downstream closeDown)
    else
      (.blocked, r.1)

/-! ## Vocabulary for stating properties of traces -/

/-- The event is a library call that returned an error. -/
def Ev.failed : Ev → Bool
  | .readBinary _ _ (.error _) => true
  | .malloc _ _ (.error _) => true
  | .flush _ _ (some _) => true
  | .release _ (some _) => true
  | .close _ (some _) => true
  | _ => false

/-- The event is a call on a reader or a writer (or the `copy` into a writer). -/
def Ev.isIO : Ev → Bool
  | .readerLen _ _ => true
  | .readBinary _ _ _ => true
  | .malloc _ _ _ => true
  | .copy _ _ => true
  | .mallocLen _ _ => true
  | .flush _ _ _ => true
  | .release _ _ => true
  | _ => false

/-- The event is a `Malloc(n)` that did not hand back a slice of length `n`. -/
def Ev.mallocShort : Ev → Bool
  | .malloc _ n (.ok m) => m != n
  | _ => false

/-- The event is a `Close`. -/
def Ev.isClose : Ev → Bool
  | .close _ _ => true
  | _ => false

/-- The event is a check of the cancellation signal. -/
def Ev.isCtxDone : Ev → Bool
  | .ctxDone _ _ => true
  | _ => false

/-- The bytes handed to `dst` by successful flushes, in flush order. -/
def flushedTo (dst : Endpoint) : List Ev → List Byte
  | [] => []
  | .flush d bytes none :: t => if d = dst then bytes ++ flushedTo dst t else flushedTo dst t
  | _ :: t => flushedTo dst t

/-- The bytes returned by successful reads from `src`, in read order. -/
def readFrom (src : Endpoint) : List Ev → List Byte
  | [] => []
  | .readBinary s _ (.ok buf) :: t => if s = src then buf ++ readFrom src t else readFrom src t
  | _ :: t => readFrom src t

/-- How many times `Close` was called on `c`. -/
def closeCount (c : Endpoint) (t : List Ev) : Nat :=
  t.countP (fun e => match e with
    | .close d _ => d == c
    | _ => false)

/-- Every event of `t` satisfying `q` has an earlier event satisfying `p`. -/
def EachAfter (p q : Ev → Bool) (t : List Ev) : Prop :=
  ∀ pre e post, t = pre ++ e :: post → q e = true → ∃ x ∈ pre, p x = true

/-- Boolean check: the first failed call of `t`, if there is one, is followed by
one diagnostic line and the return of pump `src`, and by nothing else. -/
def endsAfterFailure (src : Endpoint) : List Ev → Bool
  | [] => true
  | e :: t =>
    if e.failed then
      match t with
      | [.printf _ _, .ret s] => s == src
      | _ => false
    else endsAfterFailure src t

/-- The event is a `Release`. -/
def Ev.isRelease : Ev → Bool
  | .release _ _ => true
  | _ => false

/-- The event is the `copy` of exactly `buf` into the writer of `dst`. -/
def Ev.isCopyOf (dst : Endpoint) (buf : List Byte) : Ev → Bool
  | .copy d b => d == dst && b == buf
  | _ => false

/-- The event is a `Flush` of exactly `bytes` on `dst` that returned no error. -/
def Ev.isFlushOkOf (dst : Endpoint) (bytes : List Byte) : Ev → Bool
  | .flush d b none => d == dst && b == bytes
  | _ => false

/-- Boolean check of `EachAfter`; `seen` records whether an event satisfying `p`
has been met. -/
def eachAfterB (p q : Ev → Bool) : Bool → List Ev → Bool
  | _, [] => true
  | seen, e :: t => (!(q e) || seen) && eachAfterB p q (seen || p e) t

/-- The event is the return of pump `p`. -/
def Ev.isRetOf (p : Endpoint) : Ev → Bool
  | .ret q => q == p
  | _ => false

/-- Whether a goroutine still holds its slot of the wait group. -/
def Pump.live (p : Pump) : Nat :=
  if p.returned then 0 else 1

/-- The event is a call of the pump from `src` to `dst` that returned an error:
a read or release on `src`, a malloc or flush on `dst`. -/
def Ev.failedBy (src dst : Endpoint) : Ev → Bool
  | .readBinary s _ (.error _) => s == src
  | .release s (some _) => s == src
  | .malloc d _ (.error _) => d == dst
  | .flush d _ (some _) => d == dst
  | _ => false

/-- The event is a reason for the pump from `src` to `dst` to stop: one of its
own calls failed, or its cancellation check found the signal set. -/
def Ev.stopsPump (src dst : Endpoint) (e : Ev) : Bool :=
  e.failedBy src dst || e == .ctxDone src true

/-- The property a cancel-on-termination design would have: once a pump has
returned, every later cancellation check of the other pump finds the signal
set. -/
def SiblingSeesCancel (t : List Ev) : Prop :=
  ∀ pre post p q b, t = pre ++ .ctxDone q b :: post → .ret p ∈ pre → q ≠ p → b = true

/-! ## Example inputs -/

/-- Example answers: a pass that reads three bytes. -/
def respAbc : Resp :=
  { len := 3, read := .ok [97, 98, 99], malloc := .ok 3, flush := none, release := none }

/-- Example answers: a pass that reads nothing. -/
def respEmpty : Resp :=
  { len := 0, read := .ok [], malloc := .ok 0, flush := none, release := none }

/-- Example answers: a pass that reads one byte. -/
def respD : Resp :=
  { len := 1, read := .ok [100], malloc := .ok 1, flush := none, release := none }

/-- Example run: three bytes, an empty read, one byte, then cancellation. -/
def cleanRounds : List Round :=
  [⟨false, respAbc⟩, ⟨false, respEmpty⟩, ⟨false, respD⟩, ⟨true, respEmpty⟩]

/-- Example answers: a pass whose flush fails. -/
def respFlushFails : Resp :=
  { len := 1, read := .ok [100], malloc := .ok 1, flush := some 32, release := none }

/-- Example run: three bytes relayed, then a flush failure; the last round is
never reached. -/
def flushFailRounds : List Round :=
  [⟨false, respAbc⟩, ⟨false, respFlushFails⟩, ⟨false, respD⟩]

/-- Example answers: a pass whose read fails. -/
def respReadFails : Resp :=
  { len := 0, read := .error 104, malloc := .ok 0, flush := none, release := none }

/-- Example session input: a context that is not cancelled and holds the dialled
downstream connection. -/
def ctxOk : Ctx :=
  { done := false, downstream := .live .downstream }

/-- Example schedule: the upstream pump runs one pass, the downstream pump two. -/
def schedBoth : List Pick :=
  [.up2down, .down2up, .down2up]

/-- A failed dial as netpoll's TCP dialer reports it: the nil `*TCPConnection`
of its inner dial function, converted to the interface, and a non-nil error. -/
def dialFailed (e : Errno) : DialResult :=
  { conn := .nilPtr, err := some e }

/-- Example schedule: the upstream pump runs one pass, then the downstream pump
runs one. -/
def schedHandover : List Pick :=
  [.up2down, .down2up]

/-! ## Basic facts about the trace vocabulary -/

theorem flushedTo_append (dst : Endpoint) (a b : List Ev) :
    flushedTo dst (a ++ b) = flushedTo dst a ++ flushedTo dst b := by
  induction a with
  | nil => rfl
  | cons e t ih =>
    cases e with
    | flush d bytes res =>
      cases res with
      | none =>
        by_cases h : d = dst
        · simp [flushedTo, h, ih]
        · simp [flushedTo, h, ih]
      | some x => simpa [flushedTo] using ih
    | _ => simpa [flushedTo] using ih

theorem readFrom_append (src : Endpoint) (a b : List Ev) :
    readFrom src (a ++ b) = readFrom src a ++ readFrom src b := by
  induction a with
  | nil => rfl
  | cons e t ih =>
    cases e with
    | readBinary s n res =>
      cases res with
      | ok buf =>
        by_cases h : s = src
        · simp [readFrom, h, ih]
        · simp [readFrom, h, ih]
      | error x => simpa [readFrom] using ih
    | _ => simpa [readFrom] using ih

theorem goCopy_exact (buf : List Byte) : goCopy (List.replicate buf.length 0) buf = buf := by
  simp [goCopy]

/-! ## Facts about one loop pass -/

/-- The end of a pass that goes back to the top of the loop leaves nothing
pending in the destination writer. -/
theorem flushAndRelease_continue_pend (src dst : Endpoint) (io : Resp) (pend1 p : List Byte)
    (h : (flushAndRelease src dst io pend1).2 = some p) : p = [] := by
  rcases io with ⟨len, read, malloc, flush, release⟩
  unfold flushAndRelease at h
  by_cases hlen : 0 < pend1.length
  · cases flush <;> cases release <;> simp [hlen] at h
    exact h
  · cases release <;> simp [hlen] at h
    have h0 : pend1 = [] := by
      cases pend1 with
      | nil => rfl
      | cons a t => simp at hlen
    rw [← h, h0]

/-- A pass that goes back to the top of the loop leaves nothing pending in the
destination writer. -/
theorem transferIter_continue_pend (src dst : Endpoint) (done : Bool) (io : Resp)
    (pend p : List Byte) (h : (transferIter src dst done io pend).2 = some p) : p = [] := by
  rcases io with ⟨len, read, malloc, flush, release⟩
  cases done
  · cases read with
    | error e => simp [transferIter] at h
    | ok buf =>
      cases malloc with
      | error e => simp [transferIter] at h
      | ok m =>
        simp only [transferIter] at h
        exact flushAndRelease_continue_pend _ _ _ _ _ h
  · simp [transferIter] at h

/-- In a pass on a writer with nothing pending, in which no call fails and
`Malloc` hands back what was asked for, what is flushed is what was read. -/
theorem transferIter_flushed_eq_read (src dst : Endpoint) (done : Bool) (io : Resp)
    (hf : ∀ e ∈ (transferIter src dst done io []).1, e.failed = false)
    (hm : ∀ e ∈ (transferIter src dst done io []).1, e.mallocShort = false) :
    flushedTo dst (transferIter src dst done io []).1
      = readFrom src (transferIter src dst done io []).1 := by
  rcases io with ⟨len, read, malloc, flush, release⟩
  cases done
  · cases read with
    | error e => simp [transferIter, Ev.failed] at hf
    | ok buf =>
      cases malloc with
      | error e => simp [transferIter, Ev.failed] at hf
      | ok m =>
        have hmb : m = buf.length := by
          have := hm (.malloc dst buf.length (.ok m)) (by simp [transferIter])
          simpa [Ev.mallocShort] using this
        subst hmb
        simp only [transferIter, goCopy_exact, List.nil_append, flushAndRelease] at hf ⊢
        by_cases hlen : 0 < buf.length
        · cases flush with
          | some e => simp [hlen, Ev.failed] at hf
          | none =>
            cases release with
            | some e => simp [hlen, Ev.failed] at hf
            | none => simp [hlen, flushedTo, readFrom]
        · have hb : buf = [] := by
            cases buf with
            | nil => rfl
            | cons a t => simp at hlen
          subst hb
          cases release with
          | some e => simp [Ev.failed] at hf
          | none => simp [flushedTo, readFrom]
  · simp [transferIter, flushedTo, readFrom]

/-! ## Facts about the loop -/

theorem transfer_cons_return (src dst : Endpoint) (r : Round) (rs : List Round)
    (pend : List Byte) (h : (transferIter src dst r.done r.io pend).2 = none) :
    transfer src dst (r :: rs) pend
      = { trace := (transferIter src dst r.done r.io pend).1 ++ [.ret src], returned := true } := by
  cases hiter : transferIter src dst r.done r.io pend with
  | mk evs o =>
    rw [hiter] at h
    simp only at h
    subst h
    simp [transfer, hiter]

theorem transfer_cons_continue (src dst : Endpoint) (r : Round) (rs : List Round)
    (pend p : List Byte) (h : (transferIter src dst r.done r.io pend).2 = some p) :
    transfer src dst (r :: rs) pend
      = { trace := (transferIter src dst r.done r.io pend).1 ++ (transfer src dst rs []).trace,
          returned := (transfer src dst rs []).returned } := by
  have hp : p = [] := transferIter_continue_pend _ _ _ _ _ _ h
  subst hp
  cases hiter : transferIter src dst r.done r.io pend with
  | mk evs o =>
    rw [hiter] at h
    simp only at h
    subst h
    simp [transfer, hiter]

/-! ## C1: bytes are relayed unchanged and in order -/

/-- C1. In every run of `transfer` (entered on a writer with nothing pending) in
which no read, malloc, flush or release returns an error and every `Malloc(n)`
hands back a slice of length `n`, the bytes flushed to `dst`, concatenated in
flush order, are exactly the bytes returned by the reads from `src`,
concatenated in read order. -/
theorem transfer_relays_bytes_in_order (src dst : Endpoint) (rs : List Round)
    (hf : ∀ e ∈ (transfer src dst rs []).trace, e.failed = false)
    (hm : ∀ e ∈ (transfer src dst rs []).trace, e.mallocShort = false) :
    flushedTo dst (transfer src dst rs []).trace
      = readFrom src (transfer src dst rs []).trace := by
  induction rs with
  | nil => rfl
  | cons r rs ih =>
    cases hiter : (transferIter src dst r.done r.io []).2 with
    | none =>
      rw [transfer_cons_return _ _ _ _ _ hiter] at hf hm ⊢
      simp only [List.mem_append] at hf hm
      have h1 := transferIter_flushed_eq_read src dst r.done r.io
        (fun e he => hf e (Or.inl he)) (fun e he => hm e (Or.inl he))
      simp [flushedTo_append, readFrom_append, h1, flushedTo, readFrom]
    | some p =>
      rw [transfer_cons_continue _ _ _ _ _ _ hiter] at hf hm ⊢
      simp only [List.mem_append] at hf hm
      have h1 := transferIter_flushed_eq_read src dst r.done r.io
        (fun e he => hf e (Or.inl he)) (fun e he => hm e (Or.inl he))
      have h2 := ih (fun e he => hf e (Or.inr he)) (fun e he => hm e (Or.inr he))
      simp [flushedTo_append, readFrom_append, h1, h2]

/-- C1 at a concrete run: `abc`, an empty read and `d` arrive downstream as `abcd`. -/
theorem transfer_relays_bytes_in_order_witness :
    (∀ e ∈ (transfer .upstream .downstream cleanRounds []).trace, e.failed = false)
    ∧ (∀ e ∈ (transfer .upstream .downstream cleanRounds []).trace, e.mallocShort = false)
    ∧ flushedTo .downstream (transfer .upstream .downstream cleanRounds []).trace
        = readFrom .upstream (transfer .upstream .downstream cleanRounds []).trace
    ∧ readFrom .upstream (transfer .upstream .downstream cleanRounds []).trace
        = [97, 98, 99, 100] :=
  ⟨by decide, by decide,
   transfer_relays_bytes_in_order .upstream .downstream cleanRounds (by decide) (by decide),
   by decide⟩

/-! ## C6: the first failing call ends the pump -/

theorem endsAfterFailure_append (src : Endpoint) (a b : List Ev)
    (h : ∀ e ∈ a, e.failed = false) :
    endsAfterFailure src (a ++ b) = endsAfterFailure src b := by
  induction a with
  | nil => rfl
  | cons e t ih =>
    have he : e.failed = false := h e (by simp)
    have ht : ∀ x ∈ t, x.failed = false := fun x hx => h x (by simp [hx])
    simp [endsAfterFailure, he, ih ht]

theorem endsAfterFailure_sound (src : Endpoint) (t pre post : List Ev) (e : Ev)
    (h : endsAfterFailure src t = true) (hsplit : t = pre ++ e :: post)
    (he : e.failed = true) : ∃ m c, post = [.printf m c, .ret src] := by
  induction pre generalizing t with
  | nil =>
    subst hsplit
    simp only [List.nil_append, endsAfterFailure, he, if_true] at h
    split at h
    · rename_i m c s
      simp at h
      exact ⟨m, c, by rw [h]⟩
    · simp at h
  | cons a pre ih =>
    subst hsplit
    simp only [List.cons_append, endsAfterFailure] at h
    by_cases ha : a.failed = true
    · simp only [ha, if_true] at h
      split at h
      · rename_i m c s heq
        have hmem : e ∈ [Ev.printf m c, Ev.ret s] := by
          rw [← heq]; simp
        simp at hmem
        rcases hmem with rfl | rfl <;> simp [Ev.failed] at he
      · simp at h
    · simp only [ha] at h
      exact ih _ h rfl

theorem flushAndRelease_continue_no_failure (src dst : Endpoint) (io : Resp)
    (pend1 p : List Byte) (h : (flushAndRelease src dst io pend1).2 = some p) :
    ∀ e ∈ (flushAndRelease src dst io pend1).1, e.failed = false := by
  rcases io with ⟨len, read, malloc, flush, release⟩
  unfold flushAndRelease at h ⊢
  by_cases hlen : 0 < pend1.length
  · cases flush <;> cases release <;> simp [hlen] at h ⊢
    simp [Ev.failed]
  · cases release <;> simp [hlen] at h ⊢
    simp [Ev.failed]

theorem flushAndRelease_return_ends (src dst : Endpoint) (io : Resp) (pend1 : List Byte)
    (h : (flushAndRelease src dst io pend1).2 = none) :
    endsAfterFailure src ((flushAndRelease src dst io pend1).1 ++ [.ret src]) = true := by
  rcases io with ⟨len, read, malloc, flush, release⟩
  unfold flushAndRelease at h ⊢
  by_cases hlen : 0 < pend1.length
  · cases flush <;> cases release <;> simp [hlen] at h ⊢ <;>
      simp [endsAfterFailure, Ev.failed]
  · cases release <;> simp [hlen] at h ⊢
    simp [endsAfterFailure, Ev.failed]

/-- A pass that goes back to the top of the loop had no failing call. -/
theorem transferIter_continue_no_failure (src dst : Endpoint) (done : Bool) (io : Resp)
    (pend p : List Byte) (h : (transferIter src dst done io pend).2 = some p) :
    ∀ e ∈ (transferIter src dst done io pend).1, e.failed = false := by
  cases done
  · cases hr : io.read with
    | error e => simp [transferIter, hr] at h
    | ok buf =>
      cases hm : io.malloc with
      | error e => simp [transferIter, hr, hm] at h
      | ok m =>
        simp only [transferIter, hr, hm] at h ⊢
        have h1 := flushAndRelease_continue_no_failure _ _ _ _ _ h
        intro e he
        simp only [Bool.false_eq_true, if_false, List.mem_append] at he
        rcases he with he | he
        · simp at he
          rcases he with rfl | rfl | rfl | rfl | rfl | rfl <;> rfl
        · exact h1 e he
  · simp [transferIter] at h

/-- A pass that returns stops right after its failing call, if it had one. -/
theorem transferIter_return_ends (src dst : Endpoint) (done : Bool) (io : Resp)
    (pend : List Byte) (h : (transferIter src dst done io pend).2 = none) :
    endsAfterFailure src ((transferIter src dst done io pend).1 ++ [.ret src]) = true := by
  cases done
  · cases hr : io.read with
    | error e => simp [transferIter, hr, endsAfterFailure, Ev.failed]
    | ok buf =>
      cases hm : io.malloc with
      | error e => simp [transferIter, hr, hm, endsAfterFailure, Ev.failed]
      | ok m =>
        simp only [transferIter, hr, hm, Bool.false_eq_true, if_false] at h ⊢
        rw [List.append_assoc, endsAfterFailure_append]
        · exact flushAndRelease_return_ends _ _ _ _ h
        · intro e he
          simp at he
          rcases he with rfl | rfl | rfl | rfl | rfl | rfl <;> rfl
  · simp [transferIter, endsAfterFailure, Ev.failed]

theorem transfer_endsAfterFailure (src dst : Endpoint) (rs : List Round) (pend : List Byte) :
    endsAfterFailure src (transfer src dst rs pend).trace = true := by
  induction rs generalizing pend with
  | nil => rfl
  | cons r rs ih =>
    cases hiter : (transferIter src dst r.done r.io pend).2 with
    | none =>
      rw [transfer_cons_return _ _ _ _ _ hiter]
      exact transferIter_return_ends _ _ _ _ _ hiter
    | some p =>
      rw [transfer_cons_continue _ _ _ _ _ _ hiter]
      simp only
      rw [endsAfterFailure_append _ _ _ (transferIter_continue_no_failure _ _ _ _ _ _ hiter)]
      exact ih []

/-- A run of `transfer` that contains a failing call has returned. -/
theorem transfer_returned_of_failure (src dst : Endpoint) (rs : List Round) (pend : List Byte)
    (e : Ev) (hmem : e ∈ (transfer src dst rs pend).trace) (he : e.failed = true) :
    (transfer src dst rs pend).returned = true := by
  induction rs generalizing pend with
  | nil => simp [transfer] at hmem
  | cons r rs ih =>
    cases hiter : (transferIter src dst r.done r.io pend).2 with
    | none => rw [transfer_cons_return _ _ _ _ _ hiter]
    | some p =>
      rw [transfer_cons_continue _ _ _ _ _ _ hiter] at hmem ⊢
      simp only [List.mem_append] at hmem
      rcases hmem with h1 | h2
      · have := transferIter_continue_no_failure _ _ _ _ _ _ hiter e h1
        rw [this] at he
        cases he
      · exact ih [] h2

/-- C6. In every run of `transfer`, a read, malloc, flush or release that returns
an error is the last library call of the run: what follows it is exactly one
diagnostic line and the return of `transfer` (so no further read, malloc,
copy, flush or release, and no retry), and `transfer` has returned. -/
theorem transfer_stops_at_first_error (src dst : Endpoint) (rs : List Round)
    (pend : List Byte) (pre post : List Ev) (e : Ev)
    (hsplit : (transfer src dst rs pend).trace = pre ++ e :: post)
    (he : e.failed = true) :
    (transfer src dst rs pend).returned = true
    ∧ (∃ m c, post = [.printf m c, .ret src])
    ∧ (∀ x ∈ post, x.isIO = false) := by
  have hret := transfer_returned_of_failure src dst rs pend e (by rw [hsplit]; simp) he
  obtain ⟨m, c, hpost⟩ :=
    endsAfterFailure_sound src _ pre post e (transfer_endsAfterFailure src dst rs pend) hsplit he
  refine ⟨hret, ⟨m, c, hpost⟩, ?_⟩
  intro x hx
  rw [hpost] at hx
  simp at hx
  rcases hx with rfl | rfl <;> rfl

/-- C6 at a concrete run: after three relayed bytes the second flush fails; the
pump prints and returns, and the third round of answers is never used. -/
theorem transfer_stops_at_first_error_witness :
    (transfer .upstream .downstream flushFailRounds []).returned = true
    ∧ (∃ m c, [Ev.printf .flushWriterError 32, Ev.ret .upstream]
        = [Ev.printf m c, Ev.ret .upstream])
    ∧ (∀ x ∈ [Ev.printf .flushWriterError 32, Ev.ret .upstream], x.isIO = false) :=
  transfer_stops_at_first_error .upstream .downstream flushFailRounds []
    [.ctxDone .upstream false, .readerLen .upstream 3, .readBinary .upstream 3 (.ok [97, 98, 99]),
     .malloc .downstream 3 (.ok 3), .copy .downstream [97, 98, 99], .mallocLen .downstream 3,
     .flush .downstream [97, 98, 99] none, .release .upstream none,
     .ctxDone .upstream false, .readerLen .upstream 1, .readBinary .upstream 1 (.ok [100]),
     .malloc .downstream 1 (.ok 1), .copy .downstream [100], .mallocLen .downstream 1]
    [.printf .flushWriterError 32, .ret .upstream]
    (.flush .downstream [100] (some 32))
    (by decide) (by decide)

/-! ## Composition of the loop -/

/-- A run that is still looping after the rounds `pre` goes on with the next
rounds; after at least one pass the writer has nothing pending. -/
theorem transfer_append (src dst : Endpoint) (pre rs : List Round) (pend : List Byte)
    (h : (transfer src dst pre pend).returned = false) :
    transfer src dst (pre ++ rs) pend
      = { trace := (transfer src dst pre pend).trace
                    ++ (transfer src dst rs (if pre.isEmpty then pend else [])).trace,
          returned := (transfer src dst rs (if pre.isEmpty then pend else [])).returned } := by
  induction pre generalizing pend with
  | nil => simp [transfer]
  | cons r pre ih =>
    cases hiter : (transferIter src dst r.done r.io pend).2 with
    | none =>
      rw [transfer_cons_return _ _ _ _ _ hiter] at h
      simp at h
    | some p =>
      rw [transfer_cons_continue _ _ _ _ _ _ hiter] at h
      simp only at h
      rw [List.cons_append, transfer_cons_continue _ _ _ _ _ _ hiter,
        transfer_cons_continue _ _ _ _ _ _ hiter, ih [] h]
      simp

/-! ## C7: the cancellation check opens every pass -/

theorem flushAndRelease_no_ctxDone (src dst : Endpoint) (io : Resp) (pend1 : List Byte) :
    ∀ e ∈ (flushAndRelease src dst io pend1).1, e.isCtxDone = false := by
  rcases io with ⟨len, read, malloc, flush, release⟩
  unfold flushAndRelease
  by_cases hlen : 0 < pend1.length
  · cases flush <;> cases release <;> simp [hlen, Ev.isCtxDone]
  · cases release <;> simp [hlen, Ev.isCtxDone]

/-- A pass starts with the check of the cancellation signal and does not check
it again. -/
theorem transferIter_head (src dst : Endpoint) (done : Bool) (io : Resp) (pend : List Byte) :
    ∃ rest, (transferIter src dst done io pend).1 = .ctxDone src done :: rest
      ∧ ∀ e ∈ rest, e.isCtxDone = false := by
  cases done
  · cases hr : io.read with
    | error e => simp [transferIter, hr, Ev.isCtxDone]
    | ok buf =>
      cases hm : io.malloc with
      | error e => simp [transferIter, hr, hm, Ev.isCtxDone]
      | ok m =>
        simp only [transferIter, hr, hm, Bool.false_eq_true, if_false, List.cons_append,
          List.nil_append, List.cons.injEq, true_and, exists_eq_left']
        intro e he
        simp only [List.mem_cons] at he
        rcases he with rfl | rfl | rfl | rfl | rfl | he
        · rfl
        · rfl
        · rfl
        · rfl
        · rfl
        · exact flushAndRelease_no_ctxDone _ _ _ _ e he
  · simp [transferIter]

/-- C7. Every pass of the loop of `transfer` starts with the check of the
cancellation signal and checks it only there.  When the signal is set at that
check the pass consists of the check alone and `transfer` returns, with no
read, malloc or flush; when it is not set, the pass goes on with its read.
The passes of a run are exactly these: a run still looping after some rounds
continues with the pass of the next round. -/
theorem transfer_checks_cancellation_each_pass (src dst : Endpoint) (done : Bool) (io : Resp)
    (pend : List Byte) (rs : List Round) :
    (∃ rest, (transferIter src dst done io pend).1 = .ctxDone src done :: rest
        ∧ ∀ e ∈ rest, e.isCtxDone = false)
    ∧ (done = true →
        transferIter src dst done io pend = ([.ctxDone src true], none)
        ∧ transfer src dst (⟨done, io⟩ :: rs) pend
            = { trace := [.ctxDone src true, .ret src], returned := true })
    ∧ (done = false →
        ∃ rest, (transferIter src dst done io pend).1
          = .ctxDone src false :: .readerLen src io.len
              :: .readBinary src io.len io.read :: rest)
    ∧ (∀ pre pend0, (transfer src dst pre pend0).returned = false →
        ∃ p, (transfer src dst (pre ++ ⟨done, io⟩ :: rs) pend0).trace
          = (transfer src dst pre pend0).trace
              ++ (transfer src dst (⟨done, io⟩ :: rs) p).trace) := by
  refine ⟨transferIter_head src dst done io pend, ?_, ?_, ?_⟩
  · intro hd
    subst hd
    have h1 : transferIter src dst true io pend = ([.ctxDone src true], none) := by
      simp [transferIter]
    refine ⟨h1, ?_⟩
    rw [transfer_cons_return src dst ⟨true, io⟩ rs pend (by rw [h1])]
    simp [h1]
  · intro hd
    subst hd
    cases hr : io.read with
    | error e => simp [transferIter, hr]
    | ok buf =>
      cases hm : io.malloc with
      | error e => simp [transferIter, hr, hm]
      | ok m => simp [transferIter, hr, hm]
  · intro pre pend0 hrun
    refine ⟨if pre.isEmpty then pend0 else [], ?_⟩
    rw [transfer_append _ _ _ _ _ hrun]

/-- C7 at a concrete run: with the signal already set, `transfer` returns at
once; the answers prepared for reads are not used. -/
theorem transfer_checks_cancellation_each_pass_witness :
    transfer .upstream .downstream [⟨true, respAbc⟩, ⟨false, respD⟩] []
      = { trace := [.ctxDone .upstream true, .ret .upstream], returned := true } :=
  ((transfer_checks_cancellation_each_pass .upstream .downstream true respAbc []
      [⟨false, respD⟩]).2.1 rfl).2

/-! ## C8: an empty read does not stop the pump -/

/-- C8. In a run of `transfer` that started on a writer with nothing pending and
is still looping, a pass whose read returns zero bytes and no error (`Malloc(0)`
handing back an empty slice and `Release` succeeding) does not stop the pump:
it copies no byte, does not call `Flush` (the pending length it reads is 0),
releases the reader, and the run goes on with the next pass, which starts with
its cancellation check. -/
theorem transfer_empty_read_continues (src dst : Endpoint) (pre post : List Round) (io : Resp)
    (hrun : (transfer src dst pre []).returned = false)
    (hread : io.read = .ok []) (hmalloc : io.malloc = .ok 0) (hrel : io.release = none) :
    transfer src dst (pre ++ ⟨false, io⟩ :: post) []
      = { trace := (transfer src dst pre []).trace
            ++ [.ctxDone src false, .readerLen src io.len, .readBinary src io.len (.ok []),
                .malloc dst 0 (.ok 0), .copy dst [], .mallocLen dst 0, .release src none]
            ++ (transfer src dst post []).trace,
          returned := (transfer src dst post []).returned }
    ∧ (∀ r post1, post = r :: post1 →
        ∃ rest, (transfer src dst post []).trace = .ctxDone src r.done :: rest) := by
  have hiter : transferIter src dst false io []
      = ([.ctxDone src false, .readerLen src io.len, .readBinary src io.len (.ok []),
          .malloc dst 0 (.ok 0), .copy dst [], .mallocLen dst 0, .release src none],
         some []) := by
    simp [transferIter, flushAndRelease, hread, hmalloc, hrel, goCopy]
  constructor
  · rw [transfer_append _ _ _ _ _ hrun]
    have hp : (if pre.isEmpty then ([] : List Byte) else []) = [] := by
      split <;> rfl
    rw [hp, transfer_cons_continue src dst ⟨false, io⟩ post [] [] (by rw [hiter])]
    simp [hiter]
  · intro r post1 hpost
    subst hpost
    obtain ⟨rest, hrest, _⟩ := transferIter_head src dst r.done r.io []
    cases h2 : (transferIter src dst r.done r.io []).2 with
    | none =>
      rw [transfer_cons_return _ _ _ _ _ h2, hrest]
      exact ⟨rest ++ [.ret src], by simp⟩
    | some p =>
      rw [transfer_cons_continue _ _ _ _ _ _ h2, hrest]
      exact ⟨rest ++ (transfer src dst post1 []).trace, by simp⟩

/-- C8 at a concrete run: after `abc`, an empty read is followed by the pass that
relays `d`. -/
theorem transfer_empty_read_continues_witness :
    transfer .upstream .downstream ([⟨false, respAbc⟩] ++ ⟨false, respEmpty⟩ :: [⟨false, respD⟩]) []
      = { trace := (transfer .upstream .downstream [⟨false, respAbc⟩] []).trace
            ++ [.ctxDone .upstream false, .readerLen .upstream respEmpty.len,
                .readBinary .upstream respEmpty.len (.ok []),
                .malloc .downstream 0 (.ok 0), .copy .downstream [], .mallocLen .downstream 0,
                .release .upstream none]
            ++ (transfer .upstream .downstream [⟨false, respD⟩] []).trace,
          returned := (transfer .upstream .downstream [⟨false, respD⟩] []).returned } :=
  (transfer_empty_read_continues .upstream .downstream [⟨false, respAbc⟩] [⟨false, respD⟩]
    respEmpty (by decide) rfl rfl rfl).1

/-! ## C9: the reader is released only after a successful flush -/

theorem eachAfterB_sound (p q : Ev → Bool) (t : List Ev) (seen : Bool)
    (h : eachAfterB p q seen t = true) (pre post : List Ev) (e : Ev)
    (hsplit : t = pre ++ e :: post) (hq : q e = true) :
    seen = true ∨ ∃ x ∈ pre, p x = true := by
  induction pre generalizing t seen with
  | nil =>
    subst hsplit
    simp [eachAfterB, hq] at h
    exact Or.inl h.1
  | cons a pre ih =>
    subst hsplit
    simp only [List.cons_append, eachAfterB, Bool.and_eq_true] at h
    rcases ih _ _ h.2 rfl with h1 | ⟨x, hx, hpx⟩
    · simp only [Bool.or_eq_true] at h1
      rcases h1 with h1 | h1
      · exact Or.inl h1
      · exact Or.inr ⟨a, by simp, h1⟩
    · exact Or.inr ⟨x, by simp [hx], hpx⟩

theorem eachAfter_of_check (p q : Ev → Bool) (t : List Ev)
    (h : eachAfterB p q false t = true) : EachAfter p q t := by
  intro pre e post hsplit hq
  rcases eachAfterB_sound p q t false h pre post e hsplit hq with h1 | h1
  · cases h1
  · exact h1

/-- C9. In a pass of `transfer` whose read returned a non-empty buffer `buf`
(`Malloc`, when it succeeds, handing back a slice of the length asked for),
every `Release` comes after the `copy` of `buf` into the destination writer and
after a `Flush` of the writer, holding `buf` at its end, that returned no
error; and when `Malloc` or `Flush` fails the pass contains no `Release`. -/
theorem transferIter_release_after_flush (src dst : Endpoint) (io : Resp) (pend buf : List Byte)
    (hread : io.read = .ok buf) (hne : buf ≠ [])
    (hmalloc : ∀ m, io.malloc = .ok m → m = buf.length) :
    EachAfter (Ev.isCopyOf dst buf) Ev.isRelease (transferIter src dst false io pend).1
    ∧ EachAfter (Ev.isFlushOkOf dst (pend ++ buf)) Ev.isRelease
        (transferIter src dst false io pend).1
    ∧ ((∃ e, io.malloc = .error e) ∨ (∃ e, io.flush = some e) →
        ∀ e ∈ (transferIter src dst false io pend).1, e.isRelease = false) := by
  have hlen : 0 < pend.length ∨ 0 < buf.length := Or.inr (List.length_pos.mpr hne)
  cases hm : io.malloc with
  | error e =>
    refine ⟨eachAfter_of_check _ _ _ ?_, eachAfter_of_check _ _ _ ?_, ?_⟩
    · simp [transferIter, hread, hm, eachAfterB, Ev.isRelease]
    · simp [transferIter, hread, hm, eachAfterB, Ev.isRelease]
    · intro _
      simp [transferIter, hread, hm, Ev.isRelease]
  | ok m =>
    have hmb := hmalloc m hm
    subst hmb
    cases hfl : io.flush with
    | some e =>
      refine ⟨eachAfter_of_check _ _ _ ?_, eachAfter_of_check _ _ _ ?_, ?_⟩
      · simp [transferIter, flushAndRelease, hread, hm, hfl, goCopy_exact, hlen, eachAfterB,
          Ev.isRelease]
      · simp [transferIter, flushAndRelease, hread, hm, hfl, goCopy_exact, hlen, eachAfterB,
          Ev.isRelease]
      · intro _
        simp [transferIter, flushAndRelease, hread, hm, hfl, goCopy_exact, hlen, Ev.isRelease]
    | none =>
      refine ⟨eachAfter_of_check _ _ _ ?_, eachAfter_of_check _ _ _ ?_, ?_⟩
      · cases hrl : io.release <;>
          simp [transferIter, flushAndRelease, hread, hm, hfl, hrl, goCopy_exact, hlen,
            eachAfterB, Ev.isRelease, Ev.isCopyOf]
      · cases hrl : io.release <;>
          simp [transferIter, flushAndRelease, hread, hm, hfl, hrl, goCopy_exact, hlen,
            eachAfterB, Ev.isRelease, Ev.isFlushOkOf]
      · intro h
        rcases h with ⟨e, he⟩ | ⟨e, he⟩
        · cases he
        · cases he

/-- C9 at a concrete pass: `abc` is read, copied and flushed before the reader
is released. -/
theorem transferIter_release_after_flush_witness :
    EachAfter (Ev.isCopyOf .downstream [97, 98, 99]) Ev.isRelease
      (transferIter .upstream .downstream false respAbc []).1
    ∧ EachAfter (Ev.isFlushOkOf .downstream ([] ++ [97, 98, 99])) Ev.isRelease
        (transferIter .upstream .downstream false respAbc []).1
    ∧ ((∃ e, respAbc.malloc = .error e) ∨ (∃ e, respAbc.flush = some e) →
        ∀ e ∈ (transferIter .upstream .downstream false respAbc []).1, e.isRelease = false) :=
  transferIter_release_after_flush .upstream .downstream respAbc [] [97, 98, 99]
    rfl (by decide) (by intro m h; cases h; rfl)

/-! ## A scheduled goroutine runs `transfer` -/

theorem pumpRun_returned (src dst : Endpoint) (cs : List Bool) (p : Pump)
    (hp : p.returned = true) : pumpRun src dst cs p = ([], p) := by
  induction cs with
  | nil => rfl
  | cons c cs ih =>
    have h1 : pumpStep src dst c p = ([], p) := by simp [pumpStep, hp]
    simp [pumpRun, h1, ih]

/-- The passes of a scheduled goroutine are the passes of the loop of `transfer`
on the answers of its script, with the cancellation signal as seen at each
pass. -/
theorem pumpRun_eq_transfer (src dst : Endpoint) (cs : List Bool) (p : Pump)
    (hp : p.returned = false) :
    (pumpRun src dst cs p).1
        = (transfer src dst (roundsSeen cs p.script) p.pend).trace
    ∧ (pumpRun src dst cs p).2.returned
        = (transfer src dst (roundsSeen cs p.script) p.pend).returned := by
  induction cs generalizing p with
  | nil => simp [pumpRun, roundsSeen, transfer, hp]
  | cons c cs ih =>
    cases hs : p.script with
    | nil =>
      cases c with
      | false =>
        have h1 : pumpStep src dst false p = ([], p) := by simp [pumpStep, hp, hs]
        have h2 := ih p hp
        rw [hs] at h2
        simp only [pumpRun, h1, List.nil_append, roundsSeen]
        exact h2
      | true =>
        have h1 : pumpStep src dst true p
            = ([.ctxDone src true, .ret src],
               { script := [], pend := p.pend, returned := true }) := by
          simp [pumpStep, hp, hs]
        have h3 : (transferIter src dst true Resp.unused p.pend).2 = none := by
          simp [transferIter]
        simp only [roundsSeen]
        rw [transfer_cons_return src dst ⟨true, Resp.unused⟩ [] p.pend h3]
        simp [pumpRun, h1, pumpRun_returned, transferIter]
    | cons io rest =>
      simp only [roundsSeen]
      cases hiter : (transferIter src dst c io p.pend).2 with
      | none =>
        have h1 : pumpStep src dst c p
            = ((transferIter src dst c io p.pend).1 ++ [.ret src],
               { script := rest, pend := p.pend, returned := true }) := by
          simp [pumpStep, hp, hs, hiter]
        rw [transfer_cons_return src dst ⟨c, io⟩ _ p.pend hiter]
        simp [pumpRun, h1, pumpRun_returned]
      | some p1 =>
        have h1 : pumpStep src dst c p
            = ((transferIter src dst c io p.pend).1,
               { script := rest, pend := p1, returned := false }) := by
          simp [pumpStep, hp, hs, hiter]
        have hp1 : p1 = [] := transferIter_continue_pend _ _ _ _ _ _ hiter
        subst hp1
        have h2 := ih { script := rest, pend := [], returned := false } rfl
        rw [transfer_cons_continue src dst ⟨c, io⟩ _ p.pend [] hiter]
        simp only [pumpRun, h1]
        exact ⟨by rw [h2.1], h2.2⟩

/-! ## Facts about the session -/

theorem flushAndRelease_no_close (src dst : Endpoint) (io : Resp) (pend1 : List Byte) :
    ∀ e ∈ (flushAndRelease src dst io pend1).1, e.isClose = false := by
  rcases io with ⟨len, read, malloc, flush, release⟩
  unfold flushAndRelease
  by_cases hlen : 0 < pend1.length
  · cases flush <;> cases release <;> simp [hlen, Ev.isClose]
  · cases release <;> simp [hlen, Ev.isClose]

/-- `transfer` never closes a connection. -/
theorem transferIter_no_close (src dst : Endpoint) (done : Bool) (io : Resp)
    (pend : List Byte) : ∀ e ∈ (transferIter src dst done io pend).1, e.isClose = false := by
  cases done
  · cases hr : io.read with
    | error e => simp [transferIter, hr, Ev.isClose]
    | ok buf =>
      cases hm : io.malloc with
      | error e => simp [transferIter, hr, hm, Ev.isClose]
      | ok m =>
        simp only [transferIter, hr, hm, Bool.false_eq_true, if_false]
        intro e he
        simp only [List.mem_append] at he
        rcases he with he | he
        · simp at he
          rcases he with rfl | rfl | rfl | rfl | rfl | rfl <;> rfl
        · exact flushAndRelease_no_close _ _ _ _ e he
  · simp [transferIter, Ev.isClose]

/-- What one scheduled pass of a pump does: no `Close`; a returned pump stays
returned; a pump that returns in this pass emits its `ret`. -/
theorem pumpStep_facts (src dst : Endpoint) (c : Bool) (p : Pump) :
    (∀ e ∈ (pumpStep src dst c p).1, e.isClose = false)
    ∧ (p.returned = true → (pumpStep src dst c p).2.returned = true)
    ∧ ((pumpStep src dst c p).2.returned = true →
        p.returned = true ∨ .ret src ∈ (pumpStep src dst c p).1) := by
  unfold pumpStep
  cases hr : p.returned with
  | true => simp [hr]
  | false =>
    simp only [Bool.false_eq_true, if_false]
    cases hs : p.script with
    | nil => cases c <;> simp [hr, Ev.isClose]
    | cons io rest =>
      have hnc := transferIter_no_close src dst c io p.pend
      dsimp only
      cases hiter : (transferIter src dst c io p.pend).2 with
      | none =>
        dsimp only
        refine ⟨?_, ?_, ?_⟩
        · intro e he
          rw [List.mem_append, List.mem_singleton] at he
          rcases he with he | rfl
          · exact hnc e he
          · rfl
        · intro _; rfl
        · intro _; exact Or.inr (by simp)
      | some p1 =>
        dsimp only
        refine ⟨hnc, ?_, ?_⟩
        · intro h; cases h
        · intro h; cases h

theorem wgAfter_live (wg : Nat) (a b : Pump) (other : Nat) (h : wg = a.live + other)
    (hmono : a.returned = true → b.returned = true) :
    wgAfter wg a b = b.live + other := by
  unfold wgAfter Pump.live at *
  cases ha : a.returned <;> cases hb : b.returned <;> simp_all

/-- The wait-group counter is the number of goroutines whose `transfer` has not
returned, and no scheduling step calls `Close`. -/
theorem step_facts (up down : Endpoint) (s : Session) (pk : Pick)
    (hwg : s.wg = s.fwd.live + s.bwd.live) :
    (step up down s pk).2.wg = (step up down s pk).2.fwd.live + (step up down s pk).2.bwd.live
    ∧ (∀ e ∈ (step up down s pk).1, e.isClose = false)
    ∧ ((step up down s pk).2.fwd.returned = true →
        s.fwd.returned = true ∨ .ret up ∈ (step up down s pk).1)
    ∧ ((step up down s pk).2.bwd.returned = true →
        s.bwd.returned = true ∨ .ret down ∈ (step up down s pk).1) := by
  cases pk with
  | cancel => simp [step, hwg]
  | up2down =>
    obtain ⟨h1, h2, h3⟩ := pumpStep_facts up down s.cancelled s.fwd
    refine ⟨?_, h1, h3, fun h => Or.inl h⟩
    simp only [step]
    exact wgAfter_live _ _ _ _ hwg h2
  | down2up =>
    obtain ⟨h1, h2, h3⟩ := pumpStep_facts down up s.cancelled s.bwd
    refine ⟨?_, h1, fun h => Or.inl h, h3⟩
    simp only [step]
    rw [Nat.add_comm] at hwg
    rw [Nat.add_comm]
    exact wgAfter_live _ _ _ _ hwg h2

theorem goroutines_facts (up down : Endpoint) (sched : List Pick) (s : Session)
    (hwg : s.wg = s.fwd.live + s.bwd.live) :
    (goroutines up down sched s).2.wg
        = (goroutines up down sched s).2.fwd.live + (goroutines up down sched s).2.bwd.live
    ∧ (∀ e ∈ (goroutines up down sched s).1, e.isClose = false)
    ∧ ((goroutines up down sched s).2.fwd.returned = true →
        s.fwd.returned = true ∨ .ret up ∈ (goroutines up down sched s).1)
    ∧ ((goroutines up down sched s).2.bwd.returned = true →
        s.bwd.returned = true ∨ .ret down ∈ (goroutines up down sched s).1) := by
  induction sched generalizing s with
  | nil => simp [goroutines, hwg]
  | cons pk ps ih =>
    obtain ⟨h1, h2, h3, h4⟩ := step_facts up down s pk hwg
    obtain ⟨i1, i2, i3, i4⟩ := ih (step up down s pk).2 h1
    simp only [goroutines]
    refine ⟨i1, ?_, ?_, ?_⟩
    · intro e he
      simp only [List.mem_append] at he
      rcases he with he | he
      · exact h2 e he
      · exact i2 e he
    · intro h
      rcases i3 h with h5 | h5
      · rcases h3 h5 with h6 | h6
        · exact Or.inl h6
        · exact Or.inr (by simp [h6])
      · exact Or.inr (by simp [h5])
    · intro h
      rcases i4 h with h5 | h5
      · rcases h4 h5 with h6 | h6
        · exact Or.inl h6
        · exact Or.inr (by simp [h6])
      · exact Or.inr (by simp [h5])

theorem closeCount_append (c : Endpoint) (a b : List Ev) :
    closeCount c (a ++ b) = closeCount c a + closeCount c b := by
  simp [closeCount, List.countP_append]

theorem closeCount_of_no_close (c : Endpoint) (t : List Ev)
    (h : ∀ e ∈ t, e.isClose = false) : closeCount c t = 0 := by
  unfold closeCount
  rw [List.countP_eq_zero]
  intro e he
  have := h e he
  cases e <;> simp_all [Ev.isClose]

theorem closeCount_closeConn (c d : Endpoint) (res : Option Errno) :
    closeCount c (closeConn d res) = if d = c then 1 else 0 := by
  cases res <;> by_cases h : d = c <;> simp [closeCount, closeConn, List.countP_cons, h]

theorem eachAfter_append (p q : Ev → Bool) (a b : List Ev) (x : Ev) (hx : x ∈ a)
    (hp : p x = true) (hq : ∀ e ∈ a, q e = false) : EachAfter p q (a ++ b) := by
  intro pre e post hsplit he
  rcases List.append_eq_append_iff.mp hsplit with ⟨a1, h1, _⟩ | ⟨c1, h1, h2⟩
  · exact ⟨x, by rw [h1]; simp [hx], hp⟩
  · cases c1 with
    | nil =>
      simp only [List.append_nil] at h1
      exact ⟨x, by rw [← h1]; exact hx, hp⟩
    | cons y c2 =>
      simp only [List.cons_append, List.cons.injEq] at h2
      have hmem : e ∈ a := by rw [h1, ← h2.1]; simp
      rw [hq e hmem] at he
      cases he

theorem eachAfter_of_none (p q : Ev → Bool) (t : List Ev) (hq : ∀ e ∈ t, q e = false) :
    EachAfter p q t := by
  intro pre e post hsplit he
  have hmem : e ∈ t := by rw [hsplit]; simp
  rw [hq e hmem] at he
  cases he

/-- With a downstream connection in the context, `onRequest` is its two
goroutines followed, once the wait-group counter is zero, by the two closes. -/
theorem onRequest_eq (ctx : Ctx) (hctx : ctx.downstream = .live .downstream)
    (sched : List Pick) (fwd bwd : List Resp) (cu cd : Option Errno) :
    onRequest ctx .upstream sched fwd bwd cu cd
      = if (goroutines .upstream .downstream sched (Session.start ctx fwd bwd)).2.wg = 0 then
          (.returned none,
            (goroutines .upstream .downstream sched (Session.start ctx fwd bwd)).1
              ++ closeConn .upstream cu ++ closeConn .downstream cd)
        else
          (.blocked, (goroutines .upstream .downstream sched (Session.start ctx fwd bwd)).1) := by
  simp [onRequest, hctx]

theorem start_facts (ctx : Ctx) (fwd bwd : List Resp) :
    (Session.start ctx fwd bwd).wg
      = (Session.start ctx fwd bwd).fwd.live + (Session.start ctx fwd bwd).bwd.live := by
  simp [Session.start, Pump.live]

/-- `onRequest` leaves `wg.Wait()` exactly when both pumps have returned. -/
theorem onRequest_returns_iff (ctx : Ctx) (hctx : ctx.downstream = .live .downstream)
    (sched : List Pick) (fwd bwd : List Resp) (cu cd : Option Errno) :
    (onRequest ctx .upstream sched fwd bwd cu cd).1 = .returned none
      ↔ ((goroutines .upstream .downstream sched (Session.start ctx fwd bwd)).2.fwd.returned = true
          ∧ (goroutines .upstream .downstream sched
              (Session.start ctx fwd bwd)).2.bwd.returned = true) := by
  obtain ⟨h1, _, _, _⟩ :=
    goroutines_facts .upstream .downstream sched _ (start_facts ctx fwd bwd)
  rw [onRequest_eq ctx hctx]
  generalize goroutines .upstream .downstream sched (Session.start ctx fwd bwd) = r at h1 ⊢
  unfold Pump.live at h1
  cases hf : r.2.fwd.returned <;> cases hb : r.2.bwd.returned <;> simp_all

/-- A run of `onRequest` that left `wg.Wait()` closed each endpoint once. -/
theorem onRequest_close_counts (ctx : Ctx) (hctx : ctx.downstream = .live .downstream)
    (sched : List Pick) (fwd bwd : List Resp) (cu cd : Option Errno)
    (hwg : (goroutines .upstream .downstream sched (Session.start ctx fwd bwd)).2.wg = 0) :
    closeCount .upstream (onRequest ctx .upstream sched fwd bwd cu cd).2 = 1
    ∧ closeCount .downstream (onRequest ctx .upstream sched fwd bwd cu cd).2 = 1 := by
  obtain ⟨_, h2, _, _⟩ :=
    goroutines_facts .upstream .downstream sched _ (start_facts ctx fwd bwd)
  rw [onRequest_eq ctx hctx]
  simp only [hwg, if_true]
  constructor <;>
    simp [closeCount_append, closeCount_of_no_close _ _ h2, closeCount_closeConn]

/-- Under a schedule, each goroutine of the session goes through the passes of
its own `transfer`, seeing the cancellation signal as the schedule shows it. -/
theorem goroutines_pumps (up down : Endpoint) (sched : List Pick) (s : Session) :
    (goroutines up down sched s).2.fwd
        = (pumpRun up down (seenBy .up2down sched s.cancelled) s.fwd).2
    ∧ (goroutines up down sched s).2.bwd
        = (pumpRun down up (seenBy .down2up sched s.cancelled) s.bwd).2 := by
  induction sched generalizing s with
  | nil => simp [goroutines, seenBy, pumpRun]
  | cons pk ps ih =>
    cases pk with
    | cancel =>
      have h := ih (step up down s .cancel).2
      simp only [goroutines, seenBy]
      simpa [step] using h
    | up2down =>
      have h := ih (step up down s .up2down).2
      simp only [goroutines, seenBy]
      simpa [step, pumpRun] using h
    | down2up =>
      have h := ih (step up down s .down2up).2
      simp only [goroutines, seenBy]
      simpa [step, pumpRun] using h

/-- `onRequest` returns exactly when both of its `transfer` calls return. -/
theorem onRequest_returns_iff_transfers (ctx : Ctx) (hctx : ctx.downstream = .live .downstream)
    (sched : List Pick) (fwd bwd : List Resp) (cu cd : Option Errno) :
    (onRequest ctx .upstream sched fwd bwd cu cd).1 = .returned none
      ↔ ((transfer .upstream .downstream
            (roundsSeen (seenBy .up2down sched ctx.done) fwd) []).returned = true
          ∧ (transfer .downstream .upstream
            (roundsSeen (seenBy .down2up sched ctx.done) bwd) []).returned = true) := by
  rw [onRequest_returns_iff ctx hctx]
  obtain ⟨h1, h2⟩ := goroutines_pumps .upstream .downstream sched (Session.start ctx fwd bwd)
  rw [h1, h2]
  have e1 := (pumpRun_eq_transfer .upstream .downstream
    (seenBy .up2down sched ctx.done) (Session.start ctx fwd bwd).fwd rfl).2
  have e2 := (pumpRun_eq_transfer .downstream .upstream
    (seenBy .down2up sched ctx.done) (Session.start ctx fwd bwd).bwd rfl).2
  simp only [Session.start] at e1 e2 ⊢
  rw [e1, e2]

/-! ## C2: both pumps return before either close; each endpoint is closed once -/

/-- C2. In every run of `onRequest` on a session (the context holds the dialled
downstream connection), every `Close` comes after the return of the
upstream-to-downstream pump and after the return of the downstream-to-upstream
pump, no endpoint is closed more than once, and when `onRequest` returns each
of the two endpoints has been closed exactly once. -/
theorem onRequest_closes_after_both_pumps (ctx : Ctx) (hctx : ctx.downstream = .live .downstream)
    (sched : List Pick) (fwd bwd : List Resp) (cu cd : Option Errno) :
    EachAfter (Ev.isRetOf .upstream) Ev.isClose (onRequest ctx .upstream sched fwd bwd cu cd).2
    ∧ EachAfter (Ev.isRetOf .downstream) Ev.isClose
        (onRequest ctx .upstream sched fwd bwd cu cd).2
    ∧ closeCount .upstream (onRequest ctx .upstream sched fwd bwd cu cd).2 ≤ 1
    ∧ closeCount .downstream (onRequest ctx .upstream sched fwd bwd cu cd).2 ≤ 1
    ∧ (∀ err, (onRequest ctx .upstream sched fwd bwd cu cd).1 = .returned err →
        closeCount .upstream (onRequest ctx .upstream sched fwd bwd cu cd).2 = 1
        ∧ closeCount .downstream (onRequest ctx .upstream sched fwd bwd cu cd).2 = 1) := by
  obtain ⟨h1, h2, h3, h4⟩ :=
    goroutines_facts .upstream .downstream sched _ (start_facts ctx fwd bwd)
  have hiff := onRequest_returns_iff ctx hctx sched fwd bwd cu cd
  rw [onRequest_eq ctx hctx] at hiff ⊢
  by_cases hwg : (goroutines .upstream .downstream sched (Session.start ctx fwd bwd)).2.wg = 0
  · simp only [hwg, if_true] at hiff ⊢
    obtain ⟨hf, hb⟩ := hiff.mp trivial
    have hru : Ev.ret .upstream
        ∈ (goroutines .upstream .downstream sched (Session.start ctx fwd bwd)).1 := by
      rcases h3 hf with h | h
      · simp [Session.start] at h
      · exact h
    have hrd : Ev.ret .downstream
        ∈ (goroutines .upstream .downstream sched (Session.start ctx fwd bwd)).1 := by
      rcases h4 hb with h | h
      · simp [Session.start] at h
      · exact h
    obtain ⟨hcu, hcd⟩ := onRequest_close_counts ctx hctx sched fwd bwd cu cd hwg
    rw [onRequest_eq ctx hctx] at hcu hcd
    simp only [hwg, if_true] at hcu hcd
    refine ⟨?_, ?_, by rw [hcu], by rw [hcd], fun _ _ => ⟨hcu, hcd⟩⟩
    · rw [List.append_assoc]
      exact eachAfter_append _ _ _ _ _ hru (by simp [Ev.isRetOf]) h2
    · rw [List.append_assoc]
      exact eachAfter_append _ _ _ _ _ hrd (by simp [Ev.isRetOf]) h2
  · simp only [hwg, if_false]
    refine ⟨eachAfter_of_none _ _ _ h2, eachAfter_of_none _ _ _ h2, ?_, ?_, ?_⟩
    · rw [closeCount_of_no_close _ _ h2]; exact Nat.zero_le _
    · rw [closeCount_of_no_close _ _ h2]; exact Nat.zero_le _
    · intro err h
      cases h

/-- C2 at a concrete session: the upstream pump stops on a read error, the
downstream pump on a flush error; `onRequest` returns and each endpoint is
closed once, after both returns. -/
theorem onRequest_closes_after_both_pumps_witness :
    (onRequest ctxOk .upstream schedBoth [respReadFails] [respAbc, respFlushFails]
        (some 9) none).1 = .returned none
    ∧ closeCount .upstream (onRequest ctxOk .upstream schedBoth [respReadFails]
        [respAbc, respFlushFails] (some 9) none).2 = 1
    ∧ closeCount .downstream (onRequest ctxOk .upstream schedBoth [respReadFails]
        [respAbc, respFlushFails] (some 9) none).2 = 1 :=
  ⟨by decide,
   (onRequest_closes_after_both_pumps ctxOk rfl schedBoth [respReadFails]
      [respAbc, respFlushFails] (some 9) none).2.2.2.2 none (by decide)⟩

/-! ## C5: a failing close does not stop the other close -/

/-- C5. When `onRequest` reaches its teardown (it left `wg.Wait()`), then for
every pair of results of the two `Close` calls, error or not, the run consists
of the events of the two goroutines followed by one `Close` of the upstream
connection and then one `Close` of the downstream connection: the downstream
one is called whatever the upstream one returned, and neither is repeated. -/
theorem onRequest_closes_both_whatever_fails (ctx : Ctx)
    (hctx : ctx.downstream = .live .downstream) (sched : List Pick) (fwd bwd : List Resp)
    (cu0 cd0 : Option Errno) (err : Option Errno)
    (hret : (onRequest ctx .upstream sched fwd bwd cu0 cd0).1 = .returned err)
    (cu cd : Option Errno) :
    (onRequest ctx .upstream sched fwd bwd cu cd).1 = .returned none
    ∧ (onRequest ctx .upstream sched fwd bwd cu cd).2
        = (goroutines .upstream .downstream sched (Session.start ctx fwd bwd)).1
            ++ closeConn .upstream cu ++ closeConn .downstream cd
    ∧ .close .upstream cu ∈ closeConn .upstream cu
    ∧ .close .downstream cd ∈ closeConn .downstream cd
    ∧ closeCount .upstream (onRequest ctx .upstream sched fwd bwd cu cd).2 = 1
    ∧ closeCount .downstream (onRequest ctx .upstream sched fwd bwd cu cd).2 = 1 := by
  have hwg : (goroutines .upstream .downstream sched (Session.start ctx fwd bwd)).2.wg = 0 := by
    rw [onRequest_eq ctx hctx] at hret
    by_contra hne
    simp [hne] at hret
  have hout : (onRequest ctx .upstream sched fwd bwd cu cd).1 = .returned none := by
    rw [onRequest_eq ctx hctx]; simp [hwg]
  have hcnt := onRequest_close_counts ctx hctx sched fwd bwd cu cd hwg
  refine ⟨hout, ?_, ?_, ?_, hcnt.1, hcnt.2⟩
  · rw [onRequest_eq ctx hctx]; simp [hwg]
  · cases cu <;> simp [closeConn]
  · cases cd <;> simp [closeConn]

/-- C5 at a concrete session in which both closes fail. -/
theorem onRequest_closes_both_whatever_fails_witness :
    (onRequest ctxOk .upstream schedBoth [respReadFails] [respAbc, respFlushFails]
        (some 9) (some 9)).1 = .returned none
    ∧ (onRequest ctxOk .upstream schedBoth [respReadFails] [respAbc, respFlushFails]
        (some 9) (some 9)).2
        = (goroutines .upstream .downstream schedBoth
            (Session.start ctxOk [respReadFails] [respAbc, respFlushFails])).1
            ++ closeConn .upstream (some 9) ++ closeConn .downstream (some 9)
    ∧ .close .upstream (some 9) ∈ closeConn .upstream (some 9)
    ∧ .close .downstream (some 9) ∈ closeConn .downstream (some 9)
    ∧ closeCount .upstream (onRequest ctxOk .upstream schedBoth [respReadFails]
        [respAbc, respFlushFails] (some 9) (some 9)).2 = 1
    ∧ closeCount .downstream (onRequest ctxOk .upstream schedBoth [respReadFails]
        [respAbc, respFlushFails] (some 9) (some 9)).2 = 1 :=
  onRequest_closes_both_whatever_fails ctxOk rfl schedBoth [respReadFails]
    [respAbc, respFlushFails] none none none (by decide) (some 9) (some 9)

/-! ## `onRequest` on a context without an open downstream connection -/

/-- On a nil interface value the type assertion of line 61 panics. -/
theorem onRequest_nil (ctx : Ctx) (hctx : ctx.downstream = .nil) (upstream : Endpoint)
    (sched : List Pick) (fwd bwd : List Resp) (cu cd : Option Errno) :
    onRequest ctx upstream sched fwd bwd cu cd = (.panicked .line61, []) := by
  simp [onRequest, hctx]

/-- On a nil pointer wrapped in the interface line 61 passes; no library call is
ever made, and the call stands in `wg.Wait()` until the first goroutine that is
scheduled panics at the entry of `transfer`. -/
theorem onRequest_nilPtr (ctx : Ctx) (hctx : ctx.downstream = .nilPtr) (upstream : Endpoint)
    (sched : List Pick) (fwd bwd : List Resp) (cu cd : Option Errno) :
    (onRequest ctx upstream sched fwd bwd cu cd).2 = []
    ∧ ((onRequest ctx upstream sched fwd bwd cu cd).1 = .panicked .line87
        ∨ (onRequest ctx upstream sched fwd bwd cu cd).1 = .panicked .line88
        ∨ (onRequest ctx upstream sched fwd bwd cu cd).1 = .blocked) := by
  unfold onRequest
  simp only [hctx]
  cases hf : List.find? (fun pk => pk != Pick.cancel) sched with
  | none => simp
  | some pk => cases pk <;> simp [enterTransfer, transferEntry]

/-! ## C10: `onRequest` returns a nil error -/

/-- C10. Whenever `onRequest` returns, the error it returns is nil, whatever the
context, the schedule, the results of the pumps' calls and the results of the
two closes. -/
theorem onRequest_returns_nil (ctx : Ctx) (upstream : Endpoint) (sched : List Pick)
    (fwd bwd : List Resp) (cu cd : Option Errno) (err : Option Errno)
    (hret : (onRequest ctx upstream sched fwd bwd cu cd).1 = .returned err) : err = none := by
  cases hd : ctx.downstream with
  | nil =>
    rw [onRequest_nil ctx hd] at hret
    cases hret
  | nilPtr =>
    rcases (onRequest_nilPtr ctx hd upstream sched fwd bwd cu cd).2 with h | h | h <;>
      rw [h] at hret <;> cases hret
  | live d =>
    unfold onRequest at hret
    simp only [hd] at hret
    split at hret
    · simp at hret
      exact hret.symm
    · simp at hret

/-- C10 at a concrete session with a read error, a flush error and two close
errors: `onRequest` returns, and returns nil. -/
theorem onRequest_returns_nil_witness :
    (onRequest ctxOk .upstream schedBoth [respReadFails] [respAbc, respFlushFails]
        (some 9) (some 9)).1 = .returned none
    ∧ (none : Option Errno) = none :=
  ⟨by decide,
   onRequest_returns_nil ctxOk .upstream schedBoth [respReadFails] [respAbc, respFlushFails]
     (some 9) (some 9) none (by decide)⟩

/-! ## C3: a failed dial -/

/-- C3, the code at a failed dial. `onConnect` prints and still stores what the
dial handed back, a nil pointer wrapped in the interface, in the context.  In
`onRequest` the type assertion of line 61 succeeds on it, both goroutines are
started, and the first one scheduled panics at the entry of `transfer`: the
upstream-to-downstream pump at line 88 (`dst.Writer()`), the
downstream-to-upstream pump at line 87 (`src.Reader()`).  Whatever the
schedule, `onRequest` never returns and the upstream connection is never
closed. -/
theorem onRequest_after_failed_dial (ctx : Ctx) (e : Errno) (sched : List Pick)
    (fwd bwd : List Resp) (cu cd : Option Errno) :
    (onConnect ctx (dialFailed e)).1 = [.printf .connectDownstreamFailed e]
    ∧ (onConnect ctx (dialFailed e)).2.downstream = .nilPtr
    ∧ onRequest (onConnect ctx (dialFailed e)).2 .upstream (.up2down :: sched) fwd bwd cu cd
        = (.panicked .line88, [])
    ∧ onRequest (onConnect ctx (dialFailed e)).2 .upstream (.down2up :: sched) fwd bwd cu cd
        = (.panicked .line87, [])
    ∧ (∀ err, (onRequest (onConnect ctx (dialFailed e)).2 .upstream sched fwd bwd cu cd).1
        ≠ .returned err)
    ∧ closeCount .upstream
        ((onConnect ctx (dialFailed e)).1
          ++ (onRequest (onConnect ctx (dialFailed e)).2 .upstream sched fwd bwd cu cd).2) = 0 := by
  have hd : (onConnect ctx (dialFailed e)).2.downstream = .nilPtr := rfl
  obtain ⟨h1, h2⟩ :=
    onRequest_nilPtr (onConnect ctx (dialFailed e)).2 hd .upstream sched fwd bwd cu cd
  refine ⟨rfl, hd, ?_, ?_, ?_, ?_⟩
  · simp [onRequest, hd, enterTransfer, transferEntry]
  · simp [onRequest, hd, enterTransfer, transferEntry]
  · intro err herr
    rcases h2 with h | h | h <;> rw [h] at herr <;> cases herr
  · rw [h1]
    simp [onConnect, dialFailed, closeCount]

/-! ## C4: nothing in the program sets the cancellation signal -/

theorem flushAndRelease_no_fired (src dst : Endpoint) (io : Resp) (pend1 : List Byte) :
    ∀ e ∈ (flushAndRelease src dst io pend1).1, ∀ p, e ≠ .ctxDone p true := by
  intro e he p hp
  have := flushAndRelease_no_ctxDone src dst io pend1 e he
  rw [hp] at this
  cases this

/-- A pass entered with the signal unset records no set signal. -/
theorem transferIter_no_fired (src dst : Endpoint) (io : Resp) (pend : List Byte) :
    ∀ e ∈ (transferIter src dst false io pend).1, ∀ p, e ≠ .ctxDone p true := by
  obtain ⟨rest, hrest, hno⟩ := transferIter_head src dst false io pend
  intro e he p hp
  rw [hrest] at he
  rcases List.mem_cons.mp he with h | h
  · rw [hp] at h
    cases h
  · have := hno e h
    rw [hp] at this
    cases this

theorem pumpStep_no_fired (src dst : Endpoint) (pu : Pump) :
    ∀ e ∈ (pumpStep src dst false pu).1, ∀ p, e ≠ .ctxDone p true := by
  unfold pumpStep
  cases hr : pu.returned with
  | true => simp
  | false =>
    simp only [Bool.false_eq_true, if_false]
    cases hs : pu.script with
    | nil => simp
    | cons io rest =>
      have h := transferIter_no_fired src dst io pu.pend
      dsimp only
      cases hiter : (transferIter src dst false io pu.pend).2 with
      | none =>
        dsimp only
        intro e he p hp
        rw [List.mem_append, List.mem_singleton] at he
        rcases he with he | he
        · exact h e he p hp
        · rw [hp] at he
          cases he
      | some p1 =>
        dsimp only
        exact h

/-- A scheduling step of a goroutine leaves the cancellation signal as it was. -/
theorem step_keeps_cancelled (up down : Endpoint) (s : Session) (pk : Pick)
    (hpk : pk ≠ .cancel) : (step up down s pk).2.cancelled = s.cancelled := by
  cases pk with
  | cancel => exact absurd rfl hpk
  | up2down => rfl
  | down2up => rfl

theorem goroutines_no_fired (up down : Endpoint) (sched : List Pick) (s : Session)
    (hc : s.cancelled = false) (hno : Pick.cancel ∉ sched) :
    (goroutines up down sched s).2.cancelled = false
    ∧ ∀ e ∈ (goroutines up down sched s).1, ∀ p, e ≠ .ctxDone p true := by
  induction sched generalizing s with
  | nil => simp [goroutines, hc]
  | cons pk ps ih =>
    have hpk : pk ≠ .cancel := fun h => hno (by simp [h])
    have hps : Pick.cancel ∉ ps := fun h => hno (by simp [h])
    have hc1 : (step up down s pk).2.cancelled = false := by
      rw [step_keeps_cancelled up down s pk hpk, hc]
    obtain ⟨i1, i2⟩ := ih (step up down s pk).2 hc1 hps
    simp only [goroutines]
    refine ⟨i1, ?_⟩
    intro e he
    rw [List.mem_append] at he
    rcases he with he | he
    · cases pk with
      | cancel => exact absurd rfl hpk
      | up2down =>
        simp only [step, hc] at he
        exact pumpStep_no_fired up down s.fwd e he
      | down2up =>
        simp only [step, hc] at he
        exact pumpStep_no_fired down up s.bwd e he
    · exact i2 e he

theorem eachAfter_append_both (p q : Ev → Bool) (a b : List Ev)
    (ha : EachAfter p q a) (hb : EachAfter p q b) : EachAfter p q (a ++ b) := by
  intro pre e post hsplit he
  rcases List.append_eq_append_iff.mp hsplit with ⟨a1, h1, h2⟩ | ⟨c1, h1, h2⟩
  · obtain ⟨x, hx, hpx⟩ := hb a1 e post h2 he
    exact ⟨x, by rw [h1]; simp [hx], hpx⟩
  · cases c1 with
    | nil =>
      simp only [List.append_nil] at h1
      simp only [List.nil_append] at h2
      obtain ⟨x, hx, hpx⟩ := hb [] e post h2.symm he
      simp at hx
    | cons y c2 =>
      simp only [List.cons_append, List.cons.injEq] at h2
      rw [← h2.1] at h1
      exact ha pre e c2 h1 he

theorem eachAfter_weaken (p p1 q : Ev → Bool) (t : List Ev) (h : EachAfter p q t)
    (hpp : ∀ x ∈ t, p x = true → p1 x = true) : EachAfter p1 q t := by
  intro pre e post hsplit he
  obtain ⟨x, hx, hpx⟩ := h pre e post hsplit he
  exact ⟨x, hx, hpp x (by rw [hsplit]; simp [hx]) hpx⟩

theorem flushAndRelease_return_failed (src dst : Endpoint) (io : Resp) (pend1 : List Byte)
    (h : (flushAndRelease src dst io pend1).2 = none) :
    ∃ x ∈ (flushAndRelease src dst io pend1).1, x.failedBy src dst = true := by
  rcases io with ⟨len, read, malloc, flush, release⟩
  unfold flushAndRelease at h ⊢
  by_cases hlen : 0 < pend1.length
  · cases flush <;> cases release <;> simp [hlen] at h ⊢ <;> simp [Ev.failedBy]
  · cases release <;> simp [hlen] at h ⊢
    simp [Ev.failedBy]

/-- A pass returns only when its cancellation check found the signal set or one
of its own calls failed. -/
theorem transferIter_return_stops (src dst : Endpoint) (done : Bool) (io : Resp)
    (pend : List Byte) (h : (transferIter src dst done io pend).2 = none) :
    ∃ x ∈ (transferIter src dst done io pend).1, x.stopsPump src dst = true := by
  cases done
  · cases hr : io.read with
    | error e =>
      exact ⟨.readBinary src io.len (.error e), by simp [transferIter, hr],
        by simp [Ev.stopsPump, Ev.failedBy]⟩
    | ok buf =>
      cases hm : io.malloc with
      | error e =>
        exact ⟨.malloc dst buf.length (.error e), by simp [transferIter, hr, hm],
          by simp [Ev.stopsPump, Ev.failedBy]⟩
      | ok m =>
        simp only [transferIter, hr, hm, Bool.false_eq_true, if_false] at h ⊢
        obtain ⟨x, hx, hfx⟩ := flushAndRelease_return_failed _ _ _ _ h
        exact ⟨x, by simp [hx], by simp [Ev.stopsPump, hfx]⟩
  · exact ⟨.ctxDone src true, by simp [transferIter], by simp [Ev.stopsPump]⟩

theorem flushAndRelease_no_ret (src dst : Endpoint) (io : Resp) (pend1 : List Byte) :
    ∀ e ∈ (flushAndRelease src dst io pend1).1, ∀ q, e.isRetOf q = false := by
  rcases io with ⟨len, read, malloc, flush, release⟩
  unfold flushAndRelease
  by_cases hlen : 0 < pend1.length
  · cases flush <;> cases release <;> simp [hlen, Ev.isRetOf]
  · cases release <;> simp [hlen, Ev.isRetOf]

theorem transferIter_no_ret (src dst : Endpoint) (done : Bool) (io : Resp)
    (pend : List Byte) :
    ∀ e ∈ (transferIter src dst done io pend).1, ∀ q, e.isRetOf q = false := by
  cases done
  · cases hr : io.read with
    | error e => simp [transferIter, hr, Ev.isRetOf]
    | ok buf =>
      cases hm : io.malloc with
      | error e => simp [transferIter, hr, hm, Ev.isRetOf]
      | ok m =>
        simp only [transferIter, hr, hm, Bool.false_eq_true, if_false]
        intro e he q
        simp only [List.mem_append] at he
        rcases he with he | he
        · simp at he
          rcases he with rfl | rfl | rfl | rfl | rfl | rfl <;> rfl
        · exact flushAndRelease_no_ret _ _ _ _ e he q
  · simp [transferIter, Ev.isRetOf]

/-- A pass entered with the signal unset checks it and then reads. -/
theorem transferIter_reads (src dst : Endpoint) (io : Resp) (pend : List Byte) :
    ∃ tail, (transferIter src dst false io pend).1
      = .ctxDone src false :: .readerLen src io.len :: .readBinary src io.len io.read :: tail := by
  cases hr : io.read with
  | error e => simp [transferIter, hr]
  | ok buf =>
    cases hm : io.malloc with
    | error e => simp [transferIter, hr, hm]
    | ok m => simp [transferIter, hr, hm]

/-- In the events of one scheduled pass of a pump, its return is preceded by a
reason to stop, and no other pump returns. -/
theorem pumpStep_stops (src dst : Endpoint) (c : Bool) (p : Pump) :
    EachAfter (Ev.stopsPump src dst) (Ev.isRetOf src) (pumpStep src dst c p).1
    ∧ ∀ q, q ≠ src → ∀ e ∈ (pumpStep src dst c p).1, e.isRetOf q = false := by
  unfold pumpStep
  cases hr : p.returned with
  | true =>
    simp only [if_true]
    exact ⟨eachAfter_of_none _ _ _ (by simp), by simp⟩
  | false =>
    simp only [Bool.false_eq_true, if_false]
    cases hs : p.script with
    | nil =>
      cases c with
      | false =>
        simp only [Bool.false_eq_true, if_false]
        exact ⟨eachAfter_of_none _ _ _ (by simp), by simp⟩
      | true =>
        simp only [if_true]
        refine ⟨?_, ?_⟩
        · exact eachAfter_append _ _ [.ctxDone src true] [.ret src] (.ctxDone src true)
            (by simp) (by simp [Ev.stopsPump]) (by simp [Ev.isRetOf])
        · intro q hq e he
          simp only [List.mem_cons, List.mem_singleton, List.not_mem_nil, or_false] at he
          rcases he with rfl | rfl
          · rfl
          · simp [Ev.isRetOf, Ne.symm hq]
    | cons io rest =>
      have hnr := transferIter_no_ret src dst c io p.pend
      dsimp only
      cases hiter : (transferIter src dst c io p.pend).2 with
      | none =>
        dsimp only
        obtain ⟨x, hx, hsx⟩ := transferIter_return_stops src dst c io p.pend hiter
        refine ⟨eachAfter_append _ _ _ _ x hx hsx (fun e he => hnr e he src), ?_⟩
        intro q hq e he
        rw [List.mem_append, List.mem_singleton] at he
        rcases he with he | rfl
        · exact hnr e he q
        · simp [Ev.isRetOf, Ne.symm hq]
      | some p1 =>
        dsimp only
        exact ⟨eachAfter_of_none _ _ _ (fun e he => hnr e he src),
          fun q _ e he => hnr e he q⟩

theorem step_stops (up down : Endpoint) (hne : up ≠ down) (s : Session) (pk : Pick) :
    EachAfter (Ev.stopsPump up down) (Ev.isRetOf up) (step up down s pk).1
    ∧ EachAfter (Ev.stopsPump down up) (Ev.isRetOf down) (step up down s pk).1 := by
  cases pk with
  | cancel => exact ⟨eachAfter_of_none _ _ _ (by simp [step]),
      eachAfter_of_none _ _ _ (by simp [step])⟩
  | up2down =>
    obtain ⟨h1, h2⟩ := pumpStep_stops up down s.cancelled s.fwd
    exact ⟨h1, eachAfter_of_none _ _ _ (h2 down (Ne.symm hne))⟩
  | down2up =>
    obtain ⟨h1, h2⟩ := pumpStep_stops down up s.cancelled s.bwd
    exact ⟨eachAfter_of_none _ _ _ (h2 up hne), h1⟩

/-- In every interleaving, the return of a pump is preceded by a reason for that
very pump to stop. -/
theorem goroutines_stops (up down : Endpoint) (hne : up ≠ down) (sched : List Pick)
    (s : Session) :
    EachAfter (Ev.stopsPump up down) (Ev.isRetOf up) (goroutines up down sched s).1
    ∧ EachAfter (Ev.stopsPump down up) (Ev.isRetOf down) (goroutines up down sched s).1 := by
  induction sched generalizing s with
  | nil => exact ⟨eachAfter_of_none _ _ _ (by simp [goroutines]),
      eachAfter_of_none _ _ _ (by simp [goroutines])⟩
  | cons pk ps ih =>
    obtain ⟨h1, h2⟩ := step_stops up down hne s pk
    obtain ⟨i1, i2⟩ := ih (step up down s pk).2
    simp only [goroutines]
    exact ⟨eachAfter_append_both _ _ _ _ h1 i1, eachAfter_append_both _ _ _ _ h2 i2⟩

/-- A pump that has returned in a run without set signal has a failed call of
its own behind it. -/
theorem goroutines_failed_before_ret (sched : List Pick) (s : Session)
    (hc : s.cancelled = false) (hno : Pick.cancel ∉ sched) :
    EachAfter (Ev.failedBy .upstream .downstream) (Ev.isRetOf .upstream)
      (goroutines .upstream .downstream sched s).1
    ∧ EachAfter (Ev.failedBy .downstream .upstream) (Ev.isRetOf .downstream)
        (goroutines .upstream .downstream sched s).1 := by
  obtain ⟨h1, h2⟩ := goroutines_stops .upstream .downstream (by decide) sched s
  have hnf := (goroutines_no_fired .upstream .downstream sched s hc hno).2
  constructor
  · refine eachAfter_weaken _ _ _ _ h1 ?_
    intro x hx hs
    simp only [Ev.stopsPump, Bool.or_eq_true, beq_iff_eq] at hs
    rcases hs with hs | hs
    · exact hs
    · exact absurd hs (hnf x hx _)
  · refine eachAfter_weaken _ _ _ _ h2 ?_
    intro x hx hs
    simp only [Ev.stopsPump, Bool.or_eq_true, beq_iff_eq] at hs
    rcases hs with hs | hs
    · exact hs
    · exact absurd hs (hnf x hx _)

theorem not_mem_of_eachAfter (p q : Ev → Bool) (t : List Ev) (e : Ev)
    (h : EachAfter p q t) (hp : ∀ x ∈ t, p x = false) (hq : q e = true) : e ∉ t := by
  intro he
  obtain ⟨pre, post, hsplit⟩ := List.append_of_mem he
  obtain ⟨x, hx, hpx⟩ := h pre e post hsplit hq
  rw [hp x (by rw [hsplit]; simp [hx])] at hpx
  cases hpx

/-- C4, as the code behaves. Neither `transfer` nor `onRequest` sets the
cancellation signal: a scheduling step of a goroutine leaves it as it was.  In
every run of `onRequest` on a session that starts with the signal unset and
in which the owner of the context does not cancel it:
every cancellation check of either pump finds the signal unset, also after
the other pump has returned; a pump returns only after one of its own calls
(read or release on its source, malloc or flush on its destination) has
failed; a pump none of whose calls has failed has not returned, and
`onRequest` is then still in `wg.Wait()`; and such a pump keeps running: when
it is scheduled with an answer of the library at hand, it checks the signal,
finds it unset, and reads. -/
theorem onRequest_never_sets_cancellation (ctx : Ctx)
    (sched : List Pick) (fwd bwd : List Resp) (cu cd : Option Errno)
    (hctx : ctx.downstream = .live .downstream)
    (hdone : ctx.done = false) (hno : Pick.cancel ∉ sched) :
    (∀ s pk, pk ≠ Pick.cancel →
        (step .upstream .downstream s pk).2.cancelled = s.cancelled)
    ∧ (∀ e ∈ (onRequest ctx .upstream sched fwd bwd cu cd).2, ∀ p, e ≠ .ctxDone p true)
    ∧ EachAfter (Ev.failedBy .upstream .downstream) (Ev.isRetOf .upstream)
        (onRequest ctx .upstream sched fwd bwd cu cd).2
    ∧ EachAfter (Ev.failedBy .downstream .upstream) (Ev.isRetOf .downstream)
        (onRequest ctx .upstream sched fwd bwd cu cd).2
    ∧ ((∀ e ∈ (onRequest ctx .upstream sched fwd bwd cu cd).2,
          e.failedBy .upstream .downstream = false) →
        .ret .upstream ∉ (onRequest ctx .upstream sched fwd bwd cu cd).2
        ∧ (onRequest ctx .upstream sched fwd bwd cu cd).1 = .blocked
        ∧ ∀ io rest,
            (goroutines .upstream .downstream sched (Session.start ctx fwd bwd)).2.fwd.script
              = io :: rest →
            ∃ tail, (step .upstream .downstream
                (goroutines .upstream .downstream sched (Session.start ctx fwd bwd)).2
                .up2down).1
              = .ctxDone .upstream false :: .readerLen .upstream io.len
                  :: .readBinary .upstream io.len io.read :: tail)
    ∧ ((∀ e ∈ (onRequest ctx .upstream sched fwd bwd cu cd).2,
          e.failedBy .downstream .upstream = false) →
        .ret .downstream ∉ (onRequest ctx .upstream sched fwd bwd cu cd).2
        ∧ (onRequest ctx .upstream sched fwd bwd cu cd).1 = .blocked
        ∧ ∀ io rest,
            (goroutines .upstream .downstream sched (Session.start ctx fwd bwd)).2.bwd.script
              = io :: rest →
            ∃ tail, (step .upstream .downstream
                (goroutines .upstream .downstream sched (Session.start ctx fwd bwd)).2
                .down2up).1
              = .ctxDone .downstream false :: .readerLen .downstream io.len
                  :: .readBinary .downstream io.len io.read :: tail) := by
  have hc0 : (Session.start ctx fwd bwd).cancelled = false := by simp [Session.start, hdone]
  obtain ⟨hcanc, hnf⟩ :=
    goroutines_no_fired .upstream .downstream sched (Session.start ctx fwd bwd) hc0 hno
  obtain ⟨hfu, hfd⟩ := goroutines_failed_before_ret sched (Session.start ctx fwd bwd) hc0 hno
  obtain ⟨_, hnc, hru, hrd⟩ :=
    goroutines_facts .upstream .downstream sched _ (start_facts ctx fwd bwd)
  have hiff := onRequest_returns_iff ctx hctx sched fwd bwd cu cd
  -- the closes add nothing that matters here
  have hclose : ∀ c res, ∀ e ∈ closeConn c res,
      (∀ p, e ≠ .ctxDone p true) ∧ (∀ q, e.isRetOf q = false)
      ∧ (∀ a b, e.failedBy a b = false) := by
    intro c res e he
    cases res <;> simp [closeConn] at he
    · subst he
      exact ⟨fun p h => (by cases h), fun q => rfl, fun a b => rfl⟩
    · rcases he with rfl | rfl
      · exact ⟨fun p h => (by cases h), fun q => rfl, fun a b => rfl⟩
      · exact ⟨fun p h => (by cases h), fun q => rfl, fun a b => rfl⟩
  have htail : ∀ (q : Ev → Bool) (pq : Endpoint),
      EachAfter q (Ev.isRetOf pq) (closeConn .upstream cu ++ closeConn .downstream cd) := by
    intro q pq
    refine eachAfter_of_none _ _ _ ?_
    intro e he
    rw [List.mem_append] at he
    rcases he with he | he
    · exact (hclose _ _ e he).2.1 pq
    · exact (hclose _ _ e he).2.1 pq
  -- the trace of `onRequest` is the goroutines' trace, followed by the closes if it returned
  have htrace : ∃ tl, (onRequest ctx .upstream sched fwd bwd cu cd).2
      = (goroutines .upstream .downstream sched (Session.start ctx fwd bwd)).1 ++ tl
      ∧ (tl = [] ∨ tl = closeConn .upstream cu ++ closeConn .downstream cd) := by
    rw [onRequest_eq ctx hctx]
    split
    · exact ⟨_, by rw [List.append_assoc], Or.inr rfl⟩
    · exact ⟨[], by simp, Or.inl rfl⟩
  obtain ⟨tl, htl, htlc⟩ := htrace
  have htl_each : ∀ (q : Ev → Bool) (pq : Endpoint), EachAfter q (Ev.isRetOf pq) tl := by
    intro q pq
    rcases htlc with h | h
    · rw [h]; exact eachAfter_of_none _ _ _ (by simp)
    · rw [h]; exact htail q pq
  have hEu : EachAfter (Ev.failedBy .upstream .downstream) (Ev.isRetOf .upstream)
      (onRequest ctx .upstream sched fwd bwd cu cd).2 := by
    rw [htl]; exact eachAfter_append_both _ _ _ _ hfu (htl_each _ _)
  have hEd : EachAfter (Ev.failedBy .downstream .upstream) (Ev.isRetOf .downstream)
      (onRequest ctx .upstream sched fwd bwd cu cd).2 := by
    rw [htl]; exact eachAfter_append_both _ _ _ _ hfd (htl_each _ _)
  have hblocked : (onRequest ctx .upstream sched fwd bwd cu cd).1 ≠ .returned none →
      (onRequest ctx .upstream sched fwd bwd cu cd).1 = .blocked := by
    rw [onRequest_eq ctx hctx]
    split <;> simp
  have hbody_sub : ∀ e ∈ (goroutines .upstream .downstream sched (Session.start ctx fwd bwd)).1,
      e ∈ (onRequest ctx .upstream sched fwd bwd cu cd).2 := by
    intro e he
    rw [htl]; simp [he]
  refine ⟨fun s pk hpk => step_keeps_cancelled .upstream .downstream s pk hpk, ?_, hEu, hEd,
    ?_, ?_⟩
  · intro e he p
    rw [htl, List.mem_append] at he
    rcases he with he | he
    · exact hnf e he p
    · rcases htlc with h | h
      · rw [h] at he; simp at he
      · rw [h, List.mem_append] at he
        rcases he with he | he
        · exact (hclose _ _ e he).1 p
        · exact (hclose _ _ e he).1 p
  · intro hok
    have hnot : Ev.ret .upstream ∉ (onRequest ctx .upstream sched fwd bwd cu cd).2 :=
      not_mem_of_eachAfter _ _ _ _ hEu hok (by simp [Ev.isRetOf])
    have hlive : (goroutines .upstream .downstream sched
        (Session.start ctx fwd bwd)).2.fwd.returned = false := by
      cases hr : (goroutines .upstream .downstream sched
          (Session.start ctx fwd bwd)).2.fwd.returned with
      | false => rfl
      | true =>
        rcases hru hr with h | h
        · simp [Session.start] at h
        · exact absurd (hbody_sub _ h) hnot
    refine ⟨hnot, hblocked ?_, ?_⟩
    · intro hret
      have := (hiff.mp hret).1
      rw [hlive] at this
      cases this
    · intro io rest hs
      obtain ⟨tail, htail⟩ := transferIter_reads .upstream .downstream io
        (goroutines .upstream .downstream sched (Session.start ctx fwd bwd)).2.fwd.pend
      simp only [step, pumpStep, hlive, hs, hcanc, Bool.false_eq_true, if_false]
      cases hiter : (transferIter .upstream .downstream false io
          (goroutines .upstream .downstream sched (Session.start ctx fwd bwd)).2.fwd.pend).2 with
      | none => exact ⟨tail ++ [.ret .upstream], by simp [htail]⟩
      | some p1 => exact ⟨tail, by simp [htail]⟩
  · intro hok
    have hnot : Ev.ret .downstream ∉ (onRequest ctx .upstream sched fwd bwd cu cd).2 :=
      not_mem_of_eachAfter _ _ _ _ hEd hok (by simp [Ev.isRetOf])
    have hlive : (goroutines .upstream .downstream sched
        (Session.start ctx fwd bwd)).2.bwd.returned = false := by
      cases hr : (goroutines .upstream .downstream sched
          (Session.start ctx fwd bwd)).2.bwd.returned with
      | false => rfl
      | true =>
        rcases hrd hr with h | h
        · simp [Session.start] at h
        · exact absurd (hbody_sub _ h) hnot
    refine ⟨hnot, hblocked ?_, ?_⟩
    · intro hret
      have := (hiff.mp hret).2
      rw [hlive] at this
      cases this
    · intro io rest hs
      obtain ⟨tail, htail⟩ := transferIter_reads .downstream .upstream io
        (goroutines .upstream .downstream sched (Session.start ctx fwd bwd)).2.bwd.pend
      simp only [step, pumpStep, hlive, hs, hcanc, Bool.false_eq_true, if_false]
      cases hiter : (transferIter .downstream .upstream false io
          (goroutines .upstream .downstream sched (Session.start ctx fwd bwd)).2.bwd.pend).2 with
      | none => exact ⟨tail ++ [.ret .downstream], by simp [htail]⟩
      | some p1 => exact ⟨tail, by simp [htail]⟩

/-- C4 at a concrete session: the upstream pump returns on a read error and the
context is never cancelled; no check in the run finds the signal set, the
downstream pump, none of whose calls failed, has not returned, and `onRequest`
is still in `wg.Wait()`. -/
theorem onRequest_never_sets_cancellation_witness :
    ctxOk.downstream = .live .downstream ∧ ctxOk.done = false ∧ Pick.cancel ∉ schedHandover
    ∧ Ev.ret .upstream
        ∈ (onRequest ctxOk .upstream schedHandover [respReadFails] [respAbc] none none).2
    ∧ (∀ e ∈ (onRequest ctxOk .upstream schedHandover [respReadFails] [respAbc] none none).2,
        ∀ p, e ≠ .ctxDone p true)
    ∧ Ev.ret .downstream
        ∉ (onRequest ctxOk .upstream schedHandover [respReadFails] [respAbc] none none).2
    ∧ (onRequest ctxOk .upstream schedHandover [respReadFails] [respAbc] none none).1
        = .blocked :=
  ⟨rfl, rfl, by decide, by decide,
   (onRequest_never_sets_cancellation ctxOk schedHandover [respReadFails] [respAbc]
      none none rfl rfl (by decide)).2.1,
   ((onRequest_never_sets_cancellation ctxOk schedHandover [respReadFails] [respAbc]
      none none rfl rfl (by decide)).2.2.2.2.2 (by decide)).1,
   ((onRequest_never_sets_cancellation ctxOk schedHandover [respReadFails] [respAbc]
      none none rfl rfl (by decide)).2.2.2.2.2 (by decide)).2.1⟩

/-- C4 fails as stated: the upstream pump returns on a read error and the
downstream pump's next cancellation check still finds the signal unset (it
then reads and relays `abc`). -/
theorem sibling_does_not_see_cancel :
    ¬ SiblingSeesCancel
        (onRequest ctxOk .upstream schedHandover [respReadFails] [respAbc] none none).2 := by
  intro h
  have h1 := h
    [.ctxDone .upstream false, .readerLen .upstream 0, .readBinary .upstream 0 (.error 104),
     .printf .readStreamFailed 104, .ret .upstream]
    [.readerLen .downstream 3, .readBinary .downstream 3 (.ok [97, 98, 99]),
     .malloc .upstream 3 (.ok 3), .copy .upstream [97, 98, 99], .mallocLen .upstream 3,
     .flush .upstream [97, 98, 99] none, .release .downstream none]
    .upstream .downstream false (by decide) (by decide) (by decide)
  cases h1

/-! ## Cancellation needs no library answer -/

/-- A session whose context is already cancelled and whose pumps have no library
answer at hand: each pump returns at its cancellation check, `onRequest`
leaves `wg.Wait()`, closes both endpoints and returns. -/
theorem onRequest_cancelled_without_answers :
    onRequest { done := true, downstream := .live .downstream } .upstream
        [.up2down, .down2up] [] [] none none
      = (.returned none,
         [.ctxDone .upstream true, .ret .upstream, .ctxDone .downstream true, .ret .downstream,
          .close .upstream none, .close .downstream none]) := by
  decide

end TcpProxy
